import Mathlib

/-!
Verification of the localization data pipeline of `vscode-nls-dev`
(`src/main.ts`), shallowly embedded in Lean 4.

JavaScript strings are modelled as `List Char`.  File transport
(vinyl / event-stream) is modelled by explicit state passing: a stream
stage becomes a step function from accumulator state and an input file
record to a new state plus the list of emitted records.  `JSON.parse`
of well-formed payloads and the xml2js XML parser are external
libraries; documents produced by `XLF.toString` are given to the
modelled `XLF.parse` logic at the level of the document structure that
`toString` serializes.  Fallible code returns `Except`.
-/

set_option maxHeartbeats 1000000

namespace NlsDev

/-- JavaScript strings are lists of characters. -/
abbrev Str := List Char

/-- The apostrophe character, written `'\''` in the TypeScript source. -/
def aposChar : Char := Char.ofNat 39

/-- The double-quote character. -/
def quoteChar : Char := Char.ofNat 34

/-- XML entity for `<` used by `encodeEntities`/`decodeEntities`. -/
def eLt : Str := ['&', 'l', 't', ';']

/-- XML entity for `>` used by `encodeEntities`/`decodeEntities`. -/
def eGt : Str := ['&', 'g', 't', ';']

/-- XML entity for `&` used by `encodeEntities`/`decodeEntities`. -/
def eAmp : Str := ['&', 'a', 'm', 'p', ';']

/-- XML entity for `"` used by `encodeEntities`/`decodeEntities`. -/
def eQuot : Str := ['&', 'q', 'u', 'o', 't', ';']

/-- XML entity for `'` used by `encodeEntities`/`decodeEntities`. -/
def eApos : Str := ['&', '#', '3', '9', ';']

/-- One iteration of the `switch` in `encodeEntities` (src/main.ts 950-975):
the entity pushed for a single character. -/
def encChar (c : Char) : Str :=
  if c = '<' then eLt
  else if c = '>' then eGt
  else if c = '&' then eAmp
  else if c = quoteChar then eQuot
  else if c = aposChar then eApos
  else [c]

/-- `encodeEntities` (src/main.ts 950-975): per-character entity encoding,
results joined. -/
def encodeEntities (s : Str) : Str := (s.map encChar).flatten

/-- Worker for `replaceAll`, structurally recursive on a fuel argument that
is always at least the length of the string, so the fuel-exhausted branch
is never reached from `replaceAll`.  Implements the semantics of the
JavaScript `String.replace` with a global literal pattern: scan left to
right, replace each non-overlapping occurrence, never rescan a
replacement. -/
def replaceAllGo (pat rep : Str) : Nat → Str → Str
  | _, [] => []
  | 0, s => s
  | fuel + 1, x :: rest =>
    if pat.isPrefixOf (x :: rest) ∧ pat ≠ [] then
      rep ++ replaceAllGo pat rep fuel ((x :: rest).drop pat.length)
    else
      x :: replaceAllGo pat rep fuel rest

/-- `value.replace(/pat/g, rep)` for a literal pattern `pat`. -/
def replaceAll (pat rep s : Str) : Str := replaceAllGo pat rep s.length s

/-- `decodeEntities` (src/main.ts 977-984): the five global replacements,
in source order (`&lt;`, `&gt;`, `&amp;`, `&quot;`, `&#39;`). -/
def decodeEntities (s : Str) : Str :=
  replaceAll eApos [aposChar]
    (replaceAll eQuot [quoteChar]
      (replaceAll eAmp ['&']
        (replaceAll eGt ['>']
          (replaceAll eLt ['<'] s))))

theorem replaceAllGo_cons_pos {pat rep : Str} {fuel : Nat} {x : Char} {rest : Str}
    (h : pat.isPrefixOf (x :: rest) ∧ pat ≠ []) :
    replaceAllGo pat rep (fuel + 1) (x :: rest)
      = rep ++ replaceAllGo pat rep fuel ((x :: rest).drop pat.length) := by
  rw [replaceAllGo, if_pos h]

theorem replaceAllGo_cons_neg {pat rep : Str} {fuel : Nat} {x : Char} {rest : Str}
    (h : ¬(pat.isPrefixOf (x :: rest) ∧ pat ≠ [])) :
    replaceAllGo pat rep (fuel + 1) (x :: rest)
      = x :: replaceAllGo pat rep fuel rest := by
  rw [replaceAllGo, if_neg h]

/-- The fuel argument of `replaceAllGo` is irrelevant as long as it is at
least the length of the input. -/
theorem replaceAllGo_congr (pat rep : Str) :
    ∀ f g s, s.length ≤ f → s.length ≤ g →
      replaceAllGo pat rep f s = replaceAllGo pat rep g s := by
  intro f
  induction f with
  | zero =>
    intro g s hf _
    have hs : s = [] := List.eq_nil_of_length_eq_zero (Nat.le_zero.mp hf)
    subst hs
    cases g <;> rfl
  | succ n ih =>
    intro g s hf hg
    cases s with
    | nil => cases g <;> rfl
    | cons x rest =>
      cases g with
      | zero => simp at hg
      | succ m =>
        by_cases h : pat.isPrefixOf (x :: rest) ∧ pat ≠ []
        · rw [replaceAllGo_cons_pos h, replaceAllGo_cons_pos h]
          have hplen : 0 < pat.length := List.length_pos.mpr h.2
          have hlen : ((x :: rest).drop pat.length).length = rest.length + 1 - pat.length := by
            simp [List.length_drop]
          simp only [List.length_cons] at hf hg
          rw [ih m _ (by omega) (by omega)]
        · rw [replaceAllGo_cons_neg h, replaceAllGo_cons_neg h]
          simp only [List.length_cons] at hf hg
          rw [ih m rest (by omega) (by omega)]

theorem replaceAllGo_eq_replaceAll (pat rep : Str) (f : Nat) (s : Str)
    (h : s.length ≤ f) : replaceAllGo pat rep f s = replaceAll pat rep s :=
  replaceAllGo_congr pat rep f s.length s h (le_refl _)

/-- When the pattern sits at the head of the string, `replaceAll` replaces
it and continues after the replacement. -/
theorem replaceAll_append_match (pat rep t : Str) (hp : pat ≠ []) :
    replaceAll pat rep (pat ++ t) = rep ++ replaceAll pat rep t := by
  obtain ⟨p, ps, rfl⟩ : ∃ p ps, pat = p :: ps := by
    cases pat with
    | nil => exact absurd rfl hp
    | cons p ps => exact ⟨p, ps, rfl⟩
  have hpre : (p :: ps).isPrefixOf ((p :: ps) ++ t) = true :=
    List.isPrefixOf_iff_prefix.mpr (List.prefix_append _ _)
  have hgo : replaceAll (p :: ps) rep ((p :: ps) ++ t)
      = replaceAllGo (p :: ps) rep ((ps ++ t).length + 1) (p :: (ps ++ t)) := by
    show replaceAllGo (p :: ps) rep ((p :: ps) ++ t).length ((p :: ps) ++ t) = _
    simp
  rw [hgo, replaceAllGo_cons_pos ⟨by simp, List.cons_ne_nil p ps⟩]
  have hdrop : ((p :: (ps ++ t))).drop (p :: ps).length = t := by
    have := List.drop_left (p :: ps) t
    simp at this
    simp [this]
  rw [hdrop, replaceAllGo_eq_replaceAll _ _ _ _ (by simp)]

/-- When no occurrence of the pattern starts inside the block `b`,
`replaceAll` copies `b` verbatim and continues on `t`. -/
theorem replaceAll_append_nomatch (pat rep : Str) :
    ∀ (b t : Str), (∀ i, i < b.length → ¬ pat <+: (b ++ t).drop i) →
      replaceAll pat rep (b ++ t) = b ++ replaceAll pat rep t := by
  intro b
  induction b with
  | nil => intro t _; simp
  | cons x b' ih =>
    intro t h
    have h0 : ¬ pat <+: (x :: (b' ++ t)) := by simpa using h 0 (by simp)
    have hgo : replaceAll pat rep ((x :: b') ++ t)
        = replaceAllGo pat rep ((b' ++ t).length + 1) (x :: (b' ++ t)) := by
      show replaceAllGo pat rep ((x :: b') ++ t).length ((x :: b') ++ t) = _
      simp
    rw [hgo, replaceAllGo_cons_neg
      (fun hc => h0 (List.isPrefixOf_iff_prefix.mp hc.1))]
    rw [replaceAllGo_eq_replaceAll _ _ _ _ (le_refl _)]
    rw [List.cons_append]
    congr 1
    exact ih t (fun i hi => by simpa [List.drop_succ_cons] using h (i + 1) (by simpa using hi))

/-- A pattern that disagrees with `b` at index `j` is not a prefix of
`b ++ t`. -/
theorem not_prefix_of_getElem_ne (pat b : Str) (j : Nat) (hjb : j < b.length)
    (hjp : j < pat.length) (hne : pat[j]? ≠ b[j]?) (t : Str) :
    ¬ pat <+: (b ++ t) := by
  rintro ⟨u, hu⟩
  apply hne
  have h1 : (pat ++ u)[j]? = pat[j]? := by
    rw [List.getElem?_append]; simp [hjp]
  have h2 : (b ++ t)[j]? = b[j]? := by
    rw [List.getElem?_append]; simp [hjb]
  rw [← h1, hu, h2]

/-- Discharges the no-occurrence side condition of
`replaceAll_append_nomatch` when every start offset inside the block has a
character-level disagreement with the pattern inside the block itself. -/
theorem nomatch_entity (pat b : Str)
    (hob : ∀ i, i < b.length →
      ∃ j, j < pat.length ∧ j < b.length - i ∧ pat[j]? ≠ (b.drop i)[j]?) :
    ∀ t, ∀ i, i < b.length → ¬ pat <+: (b ++ t).drop i := by
  intro t i hi
  obtain ⟨j, hjp, hjb, hne⟩ := hob i hi
  rw [List.drop_append_of_le_length (le_of_lt hi)]
  exact not_prefix_of_getElem_ne pat (b.drop i) j (by rw [List.length_drop]; omega)
    hjp hne t

/-- No-occurrence condition for a singleton block whose character differs
from the pattern head. -/
theorem nomatch_singleton (p : Char) (ps : Str) (c : Char) (hpc : p ≠ c) :
    ∀ t, ∀ i, i < ([c] : Str).length → ¬ (p :: ps) <+: ([c] ++ t).drop i := by
  intro t i hi
  have hi0 : i = 0 := by simpa using Nat.lt_one_iff.mp (by simpa using hi)
  subst hi0
  rw [List.drop_zero, List.singleton_append]
  intro hpre
  rw [List.cons_prefix_cons] at hpre
  exact hpc hpre.1

/-- No-occurrence condition for a singleton block equal to the pattern
head, given that the pattern tail is not a prefix of the continuation. -/
theorem nomatch_head_singleton (p : Char) (ps : Str) (t : Str) (ht : ¬ ps <+: t) :
    ∀ i, i < ([p] : Str).length → ¬ (p :: ps) <+: ([p] ++ t).drop i := by
  intro i hi
  have hi0 : i = 0 := by simpa using Nat.lt_one_iff.mp (by simpa using hi)
  subst hi0
  rw [List.drop_zero, List.singleton_append]
  intro hpre
  rw [List.cons_prefix_cons] at hpre
  exact ht hpre.2

/-- A prefix of a flattened character-block image whose characters avoid
`'&'` lifts to a prefix of the underlying string, provided every block is
either the singleton of its character or starts with `'&'`. -/
theorem prefix_flatten_map (g : Char → Str)
    (hg : ∀ d, g d = [d] ∨ (g d).head? = some '&') :
    ∀ (l u : Str), '&' ∉ u → u <+: (l.map g).flatten → u <+: l := by
  intro l
  induction l with
  | nil =>
    intro u _ h
    simpa using h
  | cons d l' ih =>
    intro u hu h
    cases u with
    | nil => exact List.nil_prefix
    | cons c u' =>
      rcases hg d with hgd | hgd
      · rw [List.map_cons, List.flatten_cons, hgd, List.singleton_append,
          List.cons_prefix_cons] at h
        obtain ⟨rfl, h'⟩ := h
        exact List.cons_prefix_cons.mpr
          ⟨rfl, ih u' (fun hm => hu (List.mem_cons_of_mem _ hm)) h'⟩
      · exfalso
        rw [List.map_cons, List.flatten_cons] at h
        obtain ⟨a, gt_, hgde⟩ : ∃ a gt_, g d = a :: gt_ := by
          cases hge : g d with
          | nil => rw [hge] at hgd; simp at hgd
          | cons a gt_ => exact ⟨a, gt_, rfl⟩
        rw [hgde] at hgd
        simp only [List.head?_cons, Option.some.injEq] at hgd
        rw [hgde, List.cons_append, List.cons_prefix_cons] at h
        exact hu (by rw [h.1, hgd]; exact List.mem_cons_self _ _)

/-- Per-character image of `encodeEntities` output after the `&lt;`
replacement of `decodeEntities` has run. -/
def decStep1 (c : Char) : Str := if c = '<' then ['<'] else encChar c

/-- Per-character image after the `&lt;` and `&gt;` replacements. -/
def decStep2 (c : Char) : Str :=
  if c = '<' then ['<'] else if c = '>' then ['>'] else encChar c

/-- Per-character image after the `&lt;`, `&gt;` and `&amp;`
replacements. -/
def decStep3 (c : Char) : Str :=
  if c = quoteChar then eQuot else if c = aposChar then eApos else [c]

/-- Per-character image after every replacement except `&#39;`. -/
def decStep4 (c : Char) : Str := if c = aposChar then eApos else [c]

theorem decode_stage1 : ∀ s : Str,
    replaceAll eLt ['<'] ((s.map encChar).flatten) = (s.map decStep1).flatten := by
  intro s
  induction s with
  | nil => rfl
  | cons c s' ih =>
    rw [List.map_cons, List.flatten_cons, List.map_cons, List.flatten_cons]
    by_cases h1 : c = '<'
    · subst h1
      rw [show encChar '<' = eLt from by decide, show decStep1 '<' = ['<'] from by decide,
        replaceAll_append_match _ _ _ (by decide), ih]
    · by_cases h2 : c = '>'
      · subst h2
        rw [show encChar '>' = eGt from by decide, show decStep1 '>' = eGt from by decide,
          replaceAll_append_nomatch _ _ _ _ (nomatch_entity eLt eGt (by decide) _), ih]
      · by_cases h3 : c = '&'
        · subst h3
          rw [show encChar '&' = eAmp from by decide, show decStep1 '&' = eAmp from by decide,
            replaceAll_append_nomatch _ _ _ _ (nomatch_entity eLt eAmp (by decide) _), ih]
        · by_cases h4 : c = quoteChar
          · subst h4
            rw [show encChar quoteChar = eQuot from by decide,
              show decStep1 quoteChar = eQuot from by decide,
              replaceAll_append_nomatch _ _ _ _ (nomatch_entity eLt eQuot (by decide) _), ih]
          · by_cases h5 : c = aposChar
            · subst h5
              rw [show encChar aposChar = eApos from by decide,
                show decStep1 aposChar = eApos from by decide,
                replaceAll_append_nomatch _ _ _ _ (nomatch_entity eLt eApos (by decide) _), ih]
            · have he : encChar c = [c] := by simp [encChar, h1, h2, h3, h4, h5]
              have hd : decStep1 c = [c] := by simp [decStep1, encChar, h1, h2, h3, h4, h5]
              have hob : ∀ i, i < ([c] : Str).length →
                  ¬ eLt <+: ([c] ++ (s'.map encChar).flatten).drop i :=
                nomatch_singleton '&' ['l', 't', ';'] c (fun hpc => h3 hpc.symm) _
              rw [he, hd, replaceAll_append_nomatch _ _ _ _ hob, ih]

theorem decode_stage2 : ∀ s : Str,
    replaceAll eGt ['>'] ((s.map decStep1).flatten) = (s.map decStep2).flatten := by
  intro s
  induction s with
  | nil => rfl
  | cons c s' ih =>
    rw [List.map_cons, List.flatten_cons, List.map_cons, List.flatten_cons]
    by_cases h1 : c = '>'
    · subst h1
      rw [show decStep1 '>' = eGt from by decide, show decStep2 '>' = ['>'] from by decide,
        replaceAll_append_match _ _ _ (by decide), ih]
    · by_cases h2 : c = '&'
      · subst h2
        rw [show decStep1 '&' = eAmp from by decide, show decStep2 '&' = eAmp from by decide,
          replaceAll_append_nomatch _ _ _ _ (nomatch_entity eGt eAmp (by decide) _), ih]
      · by_cases h3 : c = quoteChar
        · subst h3
          rw [show decStep1 quoteChar = eQuot from by decide,
            show decStep2 quoteChar = eQuot from by decide,
            replaceAll_append_nomatch _ _ _ _ (nomatch_entity eGt eQuot (by decide) _), ih]
        · by_cases h4 : c = aposChar
          · subst h4
            rw [show decStep1 aposChar = eApos from by decide,
              show decStep2 aposChar = eApos from by decide,
              replaceAll_append_nomatch _ _ _ _ (nomatch_entity eGt eApos (by decide) _), ih]
          · have he : decStep1 c = [c] := by
              by_cases h5 : c = '<'
              · simp [decStep1, h5]
              · simp [decStep1, encChar, h1, h2, h3, h4, h5]
            have hd : decStep2 c = [c] := by
              by_cases h5 : c = '<'
              · simp [decStep2, h5]
              · simp [decStep2, encChar, h1, h2, h3, h4, h5]
            have hob : ∀ i, i < ([c] : Str).length →
                ¬ eGt <+: ([c] ++ (s'.map decStep1).flatten).drop i :=
              nomatch_singleton '&' ['g', 't', ';'] c (fun hpc => h2 hpc.symm) _
            rw [he, hd, replaceAll_append_nomatch _ _ _ _ hob, ih]

theorem decode_stage3 : ∀ s : Str,
    replaceAll eAmp ['&'] ((s.map decStep2).flatten) = (s.map decStep3).flatten := by
  intro s
  induction s with
  | nil => rfl
  | cons c s' ih =>
    rw [List.map_cons, List.flatten_cons, List.map_cons, List.flatten_cons]
    by_cases h1 : c = '&'
    · subst h1
      rw [show decStep2 '&' = eAmp from by decide, show decStep3 '&' = ['&'] from by decide,
        replaceAll_append_match _ _ _ (by decide), ih]
    · by_cases h2 : c = quoteChar
      · subst h2
        rw [show decStep2 quoteChar = eQuot from by decide,
          show decStep3 quoteChar = eQuot from by decide,
          replaceAll_append_nomatch _ _ _ _ (nomatch_entity eAmp eQuot (by decide) _), ih]
      · by_cases h3 : c = aposChar
        · subst h3
          rw [show decStep2 aposChar = eApos from by decide,
            show decStep3 aposChar = eApos from by decide,
            replaceAll_append_nomatch _ _ _ _ (nomatch_entity eAmp eApos (by decide) _), ih]
        · have he : decStep2 c = [c] := by
            by_cases h4 : c = '<'
            · simp [decStep2, h4]
            · by_cases h5 : c = '>'
              · simp [decStep2, h5]
              · simp [decStep2, encChar, h1, h2, h3, h4, h5]
          have hd : decStep3 c = [c] := by simp [decStep3, h2, h3]
          have hob : ∀ i, i < ([c] : Str).length →
              ¬ eAmp <+: ([c] ++ (s'.map decStep2).flatten).drop i :=
            nomatch_singleton '&' ['a', 'm', 'p', ';'] c (fun hpc => h1 hpc.symm) _
          rw [he, hd, replaceAll_append_nomatch _ _ _ _ hob, ih]

theorem decStep3_shape (d : Char) : decStep3 d = [d] ∨ (decStep3 d).head? = some '&' := by
  by_cases hq : d = quoteChar
  · subst hq; right; decide
  · by_cases ha : d = aposChar
    · subst ha; right; decide
    · left; simp [decStep3, hq, ha]

theorem decStep4_shape (d : Char) : decStep4 d = [d] ∨ (decStep4 d).head? = some '&' := by
  by_cases ha : d = aposChar
  · subst ha; right; decide
  · left; simp [decStep4, ha]

theorem decode_stage4 : ∀ s : Str, ¬ eQuot <:+: s →
    replaceAll eQuot [quoteChar] ((s.map decStep3).flatten) = (s.map decStep4).flatten := by
  intro s
  induction s with
  | nil => intro _; rfl
  | cons c s' ih =>
    intro h
    have hrest : ¬ eQuot <:+: s' := fun hm => h (List.infix_cons hm)
    rw [List.map_cons, List.flatten_cons, List.map_cons, List.flatten_cons]
    by_cases h1 : c = quoteChar
    · subst h1
      rw [show decStep3 quoteChar = eQuot from by decide,
        show decStep4 quoteChar = [quoteChar] from by decide,
        replaceAll_append_match _ _ _ (by decide), ih hrest]
    · by_cases h2 : c = aposChar
      · subst h2
        rw [show decStep3 aposChar = eApos from by decide,
          show decStep4 aposChar = eApos from by decide,
          replaceAll_append_nomatch _ _ _ _ (nomatch_entity eQuot eApos (by decide) _),
          ih hrest]
      · by_cases h3 : c = '&'
        · subst h3
          have hT : ¬ (['q', 'u', 'o', 't', ';'] : Str) <+: ((s'.map decStep3).flatten) := by
            intro hp
            have htail : (['q', 'u', 'o', 't', ';'] : Str) <+: s' :=
              prefix_flatten_map decStep3 decStep3_shape s' _ (by decide) hp
            exact h (List.IsPrefix.isInfix (List.cons_prefix_cons.mpr ⟨rfl, htail⟩))
          have hob : ∀ i, i < (['&'] : Str).length →
              ¬ eQuot <+: (['&'] ++ (s'.map decStep3).flatten).drop i :=
            nomatch_head_singleton '&' ['q', 'u', 'o', 't', ';'] _ hT
          rw [show decStep3 '&' = ['&'] from by decide,
            show decStep4 '&' = ['&'] from by decide,
            replaceAll_append_nomatch _ _ _ _ hob, ih hrest]
        · have he : decStep3 c = [c] := by simp [decStep3, h1, h2]
          have hd : decStep4 c = [c] := by simp [decStep4, h2]
          have hob : ∀ i, i < ([c] : Str).length →
              ¬ eQuot <+: ([c] ++ (s'.map decStep3).flatten).drop i :=
            nomatch_singleton '&' ['q', 'u', 'o', 't', ';'] c (fun hpc => h3 hpc.symm) _
          rw [he, hd, replaceAll_append_nomatch _ _ _ _ hob, ih hrest]

theorem decode_stage5 : ∀ s : Str, ¬ eApos <:+: s →
    replaceAll eApos [aposChar] ((s.map decStep4).flatten)
      = (s.map (fun c => [c])).flatten := by
  intro s
  induction s with
  | nil => intro _; rfl
  | cons c s' ih =>
    intro h
    have hrest : ¬ eApos <:+: s' := fun hm => h (List.infix_cons hm)
    rw [List.map_cons, List.flatten_cons, List.map_cons, List.flatten_cons]
    by_cases h1 : c = aposChar
    · subst h1
      rw [show decStep4 aposChar = eApos from by decide,
        replaceAll_append_match _ _ _ (by decide), ih hrest]
    · by_cases h2 : c = '&'
      · subst h2
        have hT : ¬ (['#', '3', '9', ';'] : Str) <+: ((s'.map decStep4).flatten) := by
          intro hp
          have htail : (['#', '3', '9', ';'] : Str) <+: s' :=
            prefix_flatten_map decStep4 decStep4_shape s' _ (by decide) hp
          exact h (List.IsPrefix.isInfix (List.cons_prefix_cons.mpr ⟨rfl, htail⟩))
        have hob : ∀ i, i < (['&'] : Str).length →
            ¬ eApos <+: (['&'] ++ (s'.map decStep4).flatten).drop i :=
          nomatch_head_singleton '&' ['#', '3', '9', ';'] _ hT
        rw [show decStep4 '&' = ['&'] from by decide,
          replaceAll_append_nomatch _ _ _ _ hob, ih hrest]
      · have he : decStep4 c = [c] := by simp [decStep4, h1]
        have hob : ∀ i, i < ([c] : Str).length →
            ¬ eApos <+: ([c] ++ (s'.map decStep4).flatten).drop i :=
          nomatch_singleton '&' ['#', '3', '9', ';'] c (fun hpc => h2 hpc.symm) _
        rw [he, replaceAll_append_nomatch _ _ _ _ hob, ih hrest]

theorem flatten_map_singleton (s : Str) : (s.map (fun c => [c])).flatten = s := by
  induction s with
  | nil => rfl
  | cons c s' ih => simp [ih]

/-- Entity round-trip on every string free of the literal substrings
`&quot;` and `&#39;`. -/
theorem decode_encode_of_safe (s : Str) (h1 : ¬ eQuot <:+: s) (h2 : ¬ eApos <:+: s) :
    decodeEntities (encodeEntities s) = s := by
  rw [decodeEntities, encodeEntities, decode_stage1, decode_stage2, decode_stage3,
    decode_stage4 s h1, decode_stage5 s h2, flatten_map_singleton]

/-- Modelled from the spec: `KeyInfo` from `./lib` (that module is not
under `src/`): either a bare string key or a record carrying the key and
an optional list of comment lines for translators (`KeyInfo.comment` as
used at src/main.ts 429 yields an array joined with CRLF). -/
inductive KeyInfo
  | plain (k : Str)
  | withComment (k : Str) (comment : Option (List Str))
deriving DecidableEq

/-- `KeyInfo.key` accessor used by `XLF.addFile` (src/main.ts 416). -/
def KeyInfo.key : KeyInfo → Str
  | .plain k => k
  | .withComment k _ => k

/-- `KeyInfo.comment` accessor used by `XLF.addFile` (src/main.ts 429). -/
def KeyInfo.comment : KeyInfo → Option (List Str)
  | .plain _ => none
  | .withComment _ c => c

/-- `MessageInfo` (src/main.ts 336-345): a plain string or a
`PackageJsonMessageFormat` record with message text and comment lines. -/
inductive MessageInfo
  | plain (s : Str)
  | fmt (message : Str) (comment : List Str)
deriving DecidableEq

/-- `MessageInfo.message` (src/main.ts 339-341). -/
def MessageInfo.message : MessageInfo → Str
  | .plain s => s
  | .fmt m _ => m

/-- `MessageInfo.comment` (src/main.ts 342-344). -/
def MessageInfo.comment : MessageInfo → Option (List Str)
  | .plain _ => none
  | .fmt _ c => some c

/-- `Item` (src/main.ts 308-313); `Option` models the optional
properties. -/
structure Item where
  id : Str
  message : Str
  comment : Option Str := none
  target : Option Str := none
deriving DecidableEq

/-- JavaScript truthiness of an optional string property: `undefined` and
the empty string are falsy. -/
def truthy (o : Option Str) : Option Str :=
  match o with
  | some s => if s = [] then none else some s
  | none => none

/-- The CRLF separator used for joined comment lines and output lines. -/
def crlf : Str := ['\r', '\n']

/-- One iteration of the `XLF.addFile` loop (src/main.ts 422-431): the
item pushed for key `k` and message `m`.  A comment on the key takes
precedence (`??`) over a comment carried by the message; comment lines
are entity-encoded and joined with CRLF. -/
def mkItem (k : KeyInfo) (m : MessageInfo) : Item :=
  { id := k.key
    message := encodeEntities m.message
    comment := (k.comment.or m.comment).map
      (fun cs => List.intercalate crlf (cs.map encodeEntities))
    target := none }

/-- The deduplicating loop of `XLF.addFile` (src/main.ts 411-432);
`seen` is the `existingKeys` set. -/
def buildItems : List KeyInfo → List MessageInfo → List Str → List Item
  | k :: ks, m :: ms, seen =>
    if k.key ∈ seen then buildItems ks ms seen
    else mkItem k m :: buildItems ks ms (k.key :: seen)
  | _, _, _ => []

/-- The `XLF` document builder (src/main.ts 377-386): insertion-ordered
file groups keyed by original path, plus the optional target language
fixed at construction.  The line buffer is modelled locally inside
`toString`. -/
structure XLF where
  project : Str
  target : Option Str := none
  files : List (Str × List Item) := []
deriving DecidableEq

/-- `new XLF(project, target)` (src/main.ts 382-386). -/
def XLF.new (project : Str) (target : Option Str) : XLF :=
  { project := project, target := target, files := [] }

/-- JavaScript object property lookup on a string-keyed map. -/
def lookupAssoc {β : Type} (m : List (Str × β)) (k : Str) : Option β :=
  match m with
  | [] => none
  | (k', v) :: rest => if k' = k then some v else lookupAssoc rest k

/-- JavaScript object property assignment: overwrites in place when the
key exists (keeping its position), appends otherwise. -/
def setAssoc {β : Type} (m : List (Str × β)) (k : Str) (v : β) : List (Str × β) :=
  match m with
  | [] => [(k, v)]
  | (k', v') :: rest => if k' = k then (k, v) :: rest else (k', v') :: setAssoc rest k v

/-- The error message thrown at src/main.ts 408. -/
def unmatchingKeysMessagesMsg (k m : Nat) : Str :=
  "Un-matching keys(".toList ++ (Nat.repr k).toList ++ ") and messages(".toList
    ++ (Nat.repr m).toList ++ ").".toList

/-- `XLF.addFile` (src/main.ts 403-433). -/
def XLF.addFile (x : XLF) (original : Str) (keys : List KeyInfo)
    (messages : List MessageInfo) : Except Str XLF :=
  if keys.length = 0 then .ok x
  else if keys.length ≠ messages.length then
    .error (unmatchingKeysMessagesMsg keys.length messages.length)
  else .ok { x with files := setAssoc x.files original (buildItems keys messages []) }

/-- The error message thrown at src/main.ts 438 and 455. -/
def unmatchingOriginalMsg (original : Str) : Str :=
  "Un-matching original(".toList ++ original ++ ").".toList

/-- The error message thrown at src/main.ts 441 and 458. -/
def missingTargetMsg (original : Str) : Str :=
  "Missing target(".toList ++ original ++ ").".toList

/-- The error message thrown at src/main.ts 444 and 461. -/
def mismatchingTargetMsg (original : Str) : Str :=
  "Mis-matching target(".toList ++ original ++ ").".toList

/-- The error message thrown at src/main.ts 467. -/
def unmatchingKeyMsg (k original : Str) : Str :=
  "Un-matching key(".toList ++ k ++ ") in original(".toList ++ original ++ ").".toList

/-- `XLF.setLanguageBundle` (src/main.ts 435-450).  The translation is an
`Option` because the orchestrator can pass `undefined` (src/main.ts
630); a present empty array is truthy in JavaScript, hence distinct from
`undefined`. -/
def XLF.setLanguageBundle (x : XLF) (original : Str)
    (translation : Option (List Str)) : Except Str XLF :=
  match lookupAssoc x.files original with
  | none => .error (unmatchingOriginalMsg original)
  | some file =>
    match translation with
    | none => .error (missingTargetMsg original)
    | some ts =>
      if file.length ≠ ts.length then .error (mismatchingTargetMsg original)
      else
        let translated := List.zipWith
          (fun it t => { it with target := some (encodeEntities t) }) file ts
        .ok { x with files := setAssoc x.files original translated }

/-- Modelled from the spec: `PackageJsonMessageBundle` from `./lib` (not
under `src/`): a key-indexed map of translated strings, modelled as the
insertion-ordered association list that `for..in` iterates. -/
abbrev PackageJsonMessageBundle := List (Str × Str)

/-- In-place mutation of the first item whose id matches
(`file.find(({ id }) => id === key).target = ...`, src/main.ts 465-469). -/
def updateFirst (items : List Item) (k : Str) (t : Str) : List Item :=
  match items with
  | [] => []
  | it :: rest =>
    if it.id = k then { it with target := some t } :: rest
    else it :: updateFirst rest k t

/-- The overlay loop of `XLF.setLanguagePackage` (src/main.ts 464-470). -/
def applyPackage (original : Str) (items : List Item) :
    PackageJsonMessageBundle → Except Str (List Item)
  | [] => .ok items
  | (k, v) :: rest =>
    if (items.find? (fun it => it.id == k)).isSome then
      applyPackage original (updateFirst items k (encodeEntities v)) rest
    else .error (unmatchingKeyMsg k original)

/-- `XLF.setLanguagePackage` (src/main.ts 452-471). -/
def XLF.setLanguagePackage (x : XLF) (original : Str)
    (translation : Option PackageJsonMessageBundle) : Except Str XLF :=
  match lookupAssoc x.files original with
  | none => .error (unmatchingOriginalMsg original)
  | some file =>
    match translation with
    | none => .error (missingTargetMsg original)
    | some tr =>
      if file.length ≠ tr.length then .error (mismatchingTargetMsg original)
      else (applyPackage original file tr).map
        (fun items => { x with files := setAssoc x.files original items })

/-- `Line` rendering (src/main.ts 347-364 together with `appendNewLine`,
501-505): `indent` spaces followed by the content. -/
def line (indent : Nat) (content : Str) : Str :=
  List.replicate indent ' ' ++ content

/-- The error message thrown at src/main.ts 475. -/
def noItemMsg : Str := "No item ID or value specified.".toList

/-- `XLF.addStringItem` (src/main.ts 473-490): the lines appended for one
item, or the thrown error for an empty id or message.  The comment and
target lines are emitted only when those properties are truthy. -/
def addStringItem (it : Item) : Except Str (List Str) :=
  if it.id = [] ∨ it.message = [] then .error noItemMsg
  else .ok
    (line 4 ("<trans-unit id=\"".toList ++ it.id ++ "\">".toList)
      :: line 6 ("<source xml:lang=\"en\">".toList ++ it.message ++ "</source>".toList)
      :: ((match truthy it.comment with
          | some c => [line 6 ("<note>".toList ++ c ++ "</note>".toList)]
          | none => [])
        ++ (match truthy it.target with
          | some t => [line 6 ("<target>".toList ++ t ++ "</target>".toList)]
          | none => [])
        ++ [line 4 "</trans-unit>".toList]))

/-- `appendHeader` (src/main.ts 492-495). -/
def headerLines : List Str :=
  [line 0 "<?xml version=\"1.0\" encoding=\"utf-8\"?>".toList,
   line 0 "<xliff version=\"1.2\" xmlns=\"urn:oasis:names:tc:xliff:document:1.2\">".toList]

/-- `appendFooter` (src/main.ts 497-499). -/
def footerLine : Str := line 0 "</xliff>".toList

/-- The opening line of one file group (src/main.ts 392); the
target-language attribute is present only for a truthy target. -/
def fileOpenLine (target : Option Str) (original : Str) : Str :=
  line 2 ("<file original=\"".toList ++ original ++ "\" source-language=\"en\" ".toList
    ++ (match truthy target with
        | some t => "target-language=\"".toList ++ t ++ "\" ".toList
        | none => [])
    ++ "datatype=\"plaintext\"><body>".toList)

/-- The lines of the items of one file group (src/main.ts 393-395). -/
def itemsLines : List Item → Except Str (List Str)
  | [] => .ok []
  | it :: rest => do
    let ls ← addStringItem it
    let more ← itemsLines rest
    .ok (ls ++ more)

/-- The lines of all file groups (src/main.ts 391-397). -/
def groupsLines (target : Option Str) : List (Str × List Item) → Except Str (List Str)
  | [] => .ok []
  | (orig, items) :: rest => do
    let ls ← itemsLines items
    let more ← groupsLines target rest
    .ok (fileOpenLine target orig :: (ls ++ (line 2 "</body></file>".toList :: more)))

/-- `XLF.toString` (src/main.ts 388-401) producing the buffer lines;
errors thrown by `addStringItem` propagate. -/
def XLF.toLines (x : XLF) : Except Str (List Str) := do
  let groups ← groupsLines x.target x.files
  .ok (headerLines ++ groups ++ [footerLine])

/-- `XLF.toString` (src/main.ts 388-401): the buffer joined with CRLF. -/
def XLF.toString (x : XLF) : Except Str Str :=
  (x.toLines).map (fun ls => List.intercalate crlf ls)

/-- `ParsedXLF` (src/main.ts 371-375). -/
structure ParsedXLF where
  messages : List (Str × Str)
  originalFilePath : Str
  language : Option Str
deriving DecidableEq

/-- The error message used at src/main.ts 564. -/
def noFullDataMsg : Str :=
  ("XLIFF file does not contain full localization data. "
    ++ "ID or target translation for one of the trans-unit nodes is not present.").toList

/-- The error message used at src/main.ts 544. -/
def noOriginalMsg : Str :=
  ("XLIFF file node does not contain original attribute to determine "
    ++ "the original location of the resource file.").toList

/-- The error message used at src/main.ts 548. -/
def noLanguageMsg : Str :=
  ("XLIFF file node does not contain target-language attribute to "
    ++ "determine translated language.").toList

/-- The trans-unit loop of `XLF.parse` (src/main.ts 554-566) evaluated on
the document structure serialized by `toString`: a `target` element is
present in the XML exactly when the item's target is a truthy string,
and `getValue` on a `source`/`target` leaf yields its text exactly when
that text is nonempty (an empty element has no text member); `messages`
is a JavaScript object, so assignment overwrites. -/
def parseUnits (forceLanguage : Bool) :
    List Item → List (Str × Str) → Except Str (List (Str × Str))
  | [], acc => .ok acc
  | it :: rest, acc =>
    if forceLanguage ∧ truthy it.target = none then
      parseUnits forceLanguage rest acc
    else
      match (match truthy it.target with
             | some t => some t
             | none => truthy it.message) with
      | some v =>
        if it.id ≠ [] then
          parseUnits forceLanguage rest (setAssoc acc it.id (decodeEntities v))
        else if forceLanguage then .error noFullDataMsg
        else parseUnits forceLanguage rest acc
      | none =>
        if forceLanguage then .error noFullDataMsg
        else parseUnits forceLanguage rest acc

/-- The JavaScript `toLowerCase` applied to the target-language
attribute. -/
def lowerStr (s : Str) : Str := s.map Char.toLower

/-- The per-file loop of `XLF.parse` (src/main.ts 541-570): an empty
original attribute rejects; a missing target-language attribute rejects
under `forceLanguage`; a file group without trans-units is skipped.  The
rejection for a document with no file nodes at all (src/main.ts
536-539) happens before this loop and lives in `XLF.parse`. -/
def parseFiles (forceLanguage : Bool) (target : Option Str) :
    List (Str × List Item) → Except Str (List ParsedXLF)
  | [] => .ok []
  | (orig, items) :: rest =>
    if orig = [] then .error noOriginalMsg
    else if forceLanguage ∧ (truthy target).map lowerStr = none then .error noLanguageMsg
    else if items = [] then parseFiles forceLanguage target rest
    else do
      let msgs ← parseUnits forceLanguage items []
      let more ← parseFiles forceLanguage target rest
      .ok ({ messages := msgs, originalFilePath := orig,
             language := (truthy target).map lowerStr } :: more)

/-- The error message used at src/main.ts 538. -/
def noFileNodesMsg : Str :=
  ("XLIFF file does not contain \"xliff\" or \"file\" node(s) "
    ++ "required for parsing.").toList

/-- `XLF.parse` (src/main.ts 507-575) evaluated on the document structure
that `toString` serializes.  The xml2js layer is an external library and
is modelled as returning the file groups, attributes and text that
`toString` wrote; when the document holds no `<file>` element, xml2js
leaves the `file` property absent, so `!fileNodes` rejects (src/main.ts
536-539); rejections of the returned promise become errors. -/
def XLF.parse (forceLanguage : Bool) (x : XLF) : Except Str (List ParsedXLF) :=
  if x.files = [] then .error noFileNodesMsg
  else parseFiles forceLanguage x.target x.files

/-- C2 counterexample: the string `&quot;` (which contains the character
`&` of the set) is not restored by the round-trip: encoding yields
`&amp;quot;`, whose decode first turns `&amp;` into `&` and then decodes
the resulting `&quot;` to `"`. -/
theorem c2_roundTrip_counterexample :
    decodeEntities (encodeEntities ['&', 'q', 'u', 'o', 't', ';']) = [quoteChar]
      ∧ (['&', 'q', 'u', 'o', 't', ';'] : Str) ≠ [quoteChar] := by
  constructor
  · decide
  · decide

/-- C2 (amended): for every string containing any combination of the
characters `< > & " '` but not containing the literal substrings
`&quot;` or `&#39;`, `decodeEntities (encodeEntities s) = s`. -/
theorem c2_decode_encode_roundTrip (s : Str) (h1 : ¬ eQuot <:+: s)
    (h2 : ¬ eApos <:+: s) : decodeEntities (encodeEntities s) = s :=
  decode_encode_of_safe s h1 h2

/-- Witness for C2's amended theorem at the string `<>&"'&<`. -/
theorem c2_decode_encode_roundTrip_witness :
    ¬ eQuot <:+: ['<', '>', '&', quoteChar, aposChar, '&', '<']
      ∧ ¬ eApos <:+: ['<', '>', '&', quoteChar, aposChar, '&', '<']
      ∧ decodeEntities (encodeEntities ['<', '>', '&', quoteChar, aposChar, '&', '<'])
          = ['<', '>', '&', quoteChar, aposChar, '&', '<'] :=
  ⟨by decide, by decide, c2_decode_encode_roundTrip _ (by decide) (by decide)⟩

/-- C9: `XLF.addFile` called with an empty keys list returns without
modifying the document at all, for every messages list: no file group is
created for the original path and no error is raised. -/
theorem c9_addFile_empty_keys (x : XLF) (original : Str)
    (messages : List MessageInfo) :
    x.addFile original [] messages = .ok x := rfl

/-- C3 counterexample: an empty keys list and a one-element messages list
have different lengths, yet `addFile` returns successfully instead of
raising the un-matching keys/messages error. -/
theorem c3_addFile_counterexample :
    (([] : List KeyInfo).length ≠ [MessageInfo.plain ['x']].length)
      ∧ (XLF.new ['p'] none).addFile ['f'] [] [MessageInfo.plain ['x']]
          = .ok (XLF.new ['p'] none) :=
  ⟨by decide, rfl⟩

/-- C3 (amended): for a nonempty keys list, a length mismatch between
keys and messages raises the fatal un-matching keys/messages error. -/
theorem c3_addFile_unmatching (x : XLF) (original : Str) (keys : List KeyInfo)
    (messages : List MessageInfo) (hne : keys ≠ [])
    (hlen : keys.length ≠ messages.length) :
    x.addFile original keys messages
      = .error (unmatchingKeysMessagesMsg keys.length messages.length) := by
  simp [XLF.addFile, List.length_eq_zero, hne, hlen]

/-- Witness for C3's amended theorem. -/
theorem c3_addFile_unmatching_witness :
    ([KeyInfo.plain ['a']] ≠ ([] : List KeyInfo))
      ∧ ([KeyInfo.plain ['a']].length ≠ ([] : List MessageInfo).length)
      ∧ (XLF.new ['p'] none).addFile ['f'] [KeyInfo.plain ['a']] []
          = .error (unmatchingKeysMessagesMsg 1 0) :=
  ⟨by decide, by decide, c3_addFile_unmatching _ _ _ _ (by decide) (by decide)⟩

/-- C8: under `forceLanguage = false`, a trans-unit without a target
element contributes its entity-decoded source text under its id; under
`forceLanguage = true` such a unit is skipped entirely. -/
theorem c8_parse_unit_without_target (it : Item) (rest : List Item)
    (acc : List (Str × Str)) (htgt : truthy it.target = none)
    (hid : it.id ≠ []) (hmsg : it.message ≠ []) :
    parseUnits true (it :: rest) acc = parseUnits true rest acc
      ∧ parseUnits false (it :: rest) acc
          = parseUnits false rest (setAssoc acc it.id (decodeEntities it.message)) := by
  constructor
  · rw [parseUnits]; simp [htgt]
  · rw [parseUnits, htgt]; simp [truthy, hmsg, hid]

/-- Witness for C8 on a concrete unit. -/
theorem c8_parse_unit_without_target_witness :
    truthy (Item.mk ['k'] ['m'] none none).target = none
      ∧ (Item.mk ['k'] ['m'] none none).id ≠ []
      ∧ (Item.mk ['k'] ['m'] none none).message ≠ []
      ∧ parseUnits true [Item.mk ['k'] ['m'] none none] [] = parseUnits true [] []
      ∧ parseUnits false [Item.mk ['k'] ['m'] none none] []
          = parseUnits false [] (setAssoc [] ['k'] (decodeEntities ['m'])) := by
  refine ⟨by decide, by decide, by decide, ?_⟩
  exact c8_parse_unit_without_target _ _ _ (by decide) (by decide) (by decide)

/-- `itemsLines` succeeds when no item is bad. -/
theorem itemsLines_ok (items : List Item)
    (h : ∀ it ∈ items, ¬(it.id = [] ∨ it.message = [])) :
    ∃ ls, itemsLines items = .ok ls := by
  induction items with
  | nil => exact ⟨[], rfl⟩
  | cons it rest ih =>
    obtain ⟨ls, hls⟩ := ih (fun it' hm => h it' (List.mem_cons_of_mem _ hm))
    cases hadd : addStringItem it with
    | error e =>
      rw [addStringItem, if_neg (h it (List.mem_cons_self _ _))] at hadd
      exact absurd hadd (by simp)
    | ok l1 =>
      refine ⟨l1 ++ ls, ?_⟩
      rw [itemsLines, hadd, hls]
      rfl

/-- `itemsLines` raises the no-item error when some item is bad. -/
theorem itemsLines_error (items : List Item)
    (h : ∃ it ∈ items, it.id = [] ∨ it.message = []) :
    itemsLines items = .error noItemMsg := by
  induction items with
  | nil => simp at h
  | cons it rest ih =>
    by_cases hhead : it.id = [] ∨ it.message = []
    · rw [itemsLines, addStringItem, if_pos hhead]
      rfl
    · obtain ⟨it', hmem, hbad⟩ := h
      rcases List.mem_cons.mp hmem with h' | hmem'
      · exact absurd (h' ▸ hbad) hhead
      · rw [itemsLines, addStringItem, if_neg hhead, ih ⟨it', hmem', hbad⟩]
        rfl

/-- `groupsLines` raises the no-item error when some group has a bad
item. -/
theorem groupsLines_error (target : Option Str) (files : List (Str × List Item))
    (h : ∃ p ∈ files, ∃ it ∈ p.2, it.id = [] ∨ it.message = []) :
    groupsLines target files = .error noItemMsg := by
  induction files with
  | nil => simp at h
  | cons p rest ih =>
    obtain ⟨orig, items⟩ := p
    by_cases hhead : ∃ it ∈ items, it.id = [] ∨ it.message = []
    · rw [groupsLines, itemsLines_error _ hhead]
      rfl
    · obtain ⟨q, hq, it', hit', hbad⟩ := h
      rcases List.mem_cons.mp hq with h' | hq'
      · subst h'
        exact absurd ⟨it', hit', hbad⟩ hhead
      · obtain ⟨ls, hls⟩ := itemsLines_ok items (by
          intro it hm hbadit
          exact hhead ⟨it, hm, hbadit⟩)
        rw [groupsLines, hls, ih ⟨q, hq', it', hit', hbad⟩]
        rfl

/-- C10: `XLF.toString` raises the `No item ID or value specified.` error
whenever any item of any file group has an empty id or an empty message;
in particular, adding a file group from a key whose message text is the
empty string makes serialization fail. -/
theorem c10_toString_empty_item :
    (∀ x : XLF, (∃ p ∈ x.files, ∃ it ∈ p.2, it.id = [] ∨ it.message = []) →
      x.toString = .error noItemMsg)
    ∧ (∀ (p orig k : Str) (x : XLF),
        (XLF.new p none).addFile orig [KeyInfo.plain k] [MessageInfo.plain []] = .ok x →
        x.toString = .error noItemMsg) := by
  have general : ∀ x : XLF, (∃ p ∈ x.files, ∃ it ∈ p.2, it.id = [] ∨ it.message = []) →
      x.toString = .error noItemMsg := by
    intro x h
    rw [XLF.toString, XLF.toLines, groupsLines_error _ _ h]
    rfl
  refine ⟨general, ?_⟩
  intro p orig k x hadd
  have hx : x = XLF.mk p none [(orig, [mkItem (KeyInfo.plain k) (MessageInfo.plain [])])] := by
    rw [XLF.addFile] at hadd
    simp [XLF.new, buildItems, setAssoc] at hadd
    exact hadd.symm
  subst hx
  exact general _ ⟨_, List.mem_cons_self _ _, mkItem (KeyInfo.plain k) (MessageInfo.plain []),
    List.mem_cons_self _ _, Or.inr rfl⟩

/-- Witness for C10 on a concrete document with an empty message. -/
theorem c10_toString_empty_item_witness :
    (XLF.new ['p'] none).addFile ['f'] [KeyInfo.plain ['k']] [MessageInfo.plain []]
        = .ok (XLF.mk ['p'] none
            [(['f'], [mkItem (KeyInfo.plain ['k']) (MessageInfo.plain [])])])
      ∧ (XLF.mk ['p'] none
          [(['f'], [mkItem (KeyInfo.plain ['k']) (MessageInfo.plain [])])]).toString
          = .error noItemMsg :=
  ⟨rfl, c10_toString_empty_item.2 ['p'] ['f'] ['k'] _ rfl⟩

theorem encChar_ne_nil (c : Char) : encChar c ≠ [] := by
  simp only [encChar]; split_ifs <;> simp [eLt, eGt, eAmp, eQuot, eApos]

theorem encodeEntities_ne_nil (s : Str) (h : s ≠ []) : encodeEntities s ≠ [] := by
  cases s with
  | nil => exact absurd rfl h
  | cons c s' =>
    intro hcon
    rw [encodeEntities, List.map_cons, List.flatten_cons] at hcon
    exact encChar_ne_nil c (by
      cases hx : encChar c with
      | nil => rfl
      | cons a t => rw [hx] at hcon; simp at hcon)

theorem exists_of_mem_zipWith {α β γ : Type} {f : α → β → γ} {c : γ} :
    ∀ {as : List α} {bs : List β}, c ∈ List.zipWith f as bs →
      ∃ a b, a ∈ as ∧ b ∈ bs ∧ c = f a b := by
  intro as
  induction as with
  | nil => intro bs h; simp at h
  | cons a as' ih =>
    intro bs h
    cases bs with
    | nil => simp at h
    | cons b bs' =>
      rw [List.zipWith_cons_cons] at h
      rcases List.mem_cons.mp h with h' | h'
      · exact ⟨a, b, List.mem_cons_self _ _, List.mem_cons_self _ _, h'⟩
      · obtain ⟨a', b', ha, hb, he⟩ := ih h'
        exact ⟨a', b', List.mem_cons_of_mem _ ha, List.mem_cons_of_mem _ hb, he⟩

theorem lookupAssoc_setAssoc_self {β : Type} (m : List (Str × β)) (k : Str) (v : β) :
    lookupAssoc (setAssoc m k v) k = some v := by
  induction m with
  | nil => simp [setAssoc, lookupAssoc]
  | cons p rest ih =>
    obtain ⟨k', v'⟩ := p
    by_cases h : k' = k
    · subst h; simp [setAssoc, lookupAssoc]
    · simp [setAssoc, lookupAssoc, h, ih]

theorem lookupAssoc_setAssoc_ne {β : Type} (m : List (Str × β)) (k k' : Str) (v : β)
    (h : k' ≠ k) : lookupAssoc (setAssoc m k' v) k = lookupAssoc m k := by
  induction m with
  | nil => simp [setAssoc, lookupAssoc, h]
  | cons p rest ih =>
    obtain ⟨k'', v''⟩ := p
    by_cases h2 : k'' = k'
    · subst h2
      simp [setAssoc, lookupAssoc, h]
    · by_cases h3 : k'' = k
      · subst h3; simp [setAssoc, lookupAssoc, h2, Ne.symm h]
      · simp [setAssoc, lookupAssoc, h2, h3, ih]

theorem lookupAssoc_foldl_of_ne (items : List Item) (k : Str)
    (h : ∀ it ∈ items, it.id ≠ k) : ∀ acc,
    lookupAssoc
        (items.foldl (fun a it => setAssoc a it.id (decodeEntities it.message)) acc) k
      = lookupAssoc acc k := by
  induction items with
  | nil => intro acc; rfl
  | cons it rest ih =>
    intro acc
    rw [List.foldl_cons, ih (fun it' h' => h it' (List.mem_cons_of_mem _ h'))]
    exact lookupAssoc_setAssoc_ne _ _ _ _ (h it (List.mem_cons_self _ _))

theorem lookupAssoc_foldl_setAssoc (items : List Item)
    (hnodup : (items.map Item.id).Nodup) : ∀ acc, ∀ it ∈ items,
    lookupAssoc
        (items.foldl (fun a it' => setAssoc a it'.id (decodeEntities it'.message)) acc)
        it.id
      = some (decodeEntities it.message) := by
  induction items with
  | nil => intro acc it hit; simp at hit
  | cons hd tl ih =>
    intro acc it hit
    rw [List.map_cons, List.nodup_cons] at hnodup
    rw [List.foldl_cons]
    rcases List.mem_cons.mp hit with rfl | hin
    · rw [lookupAssoc_foldl_of_ne tl it.id
        (fun it' hit' heq => hnodup.1 (heq ▸ List.mem_map_of_mem _ hit'))]
      exact lookupAssoc_setAssoc_self _ _ _
    · exact ih hnodup.2 _ it hin

/-- With pairwise distinct key ids (none already seen) the dedup loop of
`addFile` keeps every pair in order. -/
theorem buildItems_eq_zipWith (keys : List KeyInfo) :
    ∀ (messages : List MessageInfo) (seen : List Str),
      (∀ k ∈ keys, KeyInfo.key k ∉ seen) → (keys.map KeyInfo.key).Nodup →
      buildItems keys messages seen = List.zipWith mkItem keys messages := by
  induction keys with
  | nil => intro messages seen _ _; cases messages <;> rfl
  | cons k ks ih =>
    intro messages seen hseen hnodup
    cases messages with
    | nil => rfl
    | cons m ms =>
      rw [buildItems, if_neg (hseen k (List.mem_cons_self _ _)), List.zipWith_cons_cons]
      congr 1
      rw [List.map_cons, List.nodup_cons] at hnodup
      refine ih ms (KeyInfo.key k :: seen) ?_ hnodup.2
      intro k' hk' hmem
      rcases List.mem_cons.mp hmem with he | hin
      · exact hnodup.1 (he ▸ List.mem_map_of_mem _ hk')
      · exact hseen k' (List.mem_cons_of_mem _ hk') hin

/-- Full characterization of the dedup loop of `addFile`: ids are
distinct and avoid `seen`, every kept item stems from the first
occurrence of its id, and every key not in `seen` is represented. -/
theorem buildItems_spec (keys : List KeyInfo) :
    ∀ (messages : List MessageInfo) (seen : List Str),
      keys.length = messages.length →
      ((buildItems keys messages seen).map Item.id).Nodup
      ∧ (∀ it ∈ buildItems keys messages seen, it.id ∉ seen)
      ∧ (∀ it ∈ buildItems keys messages seen,
          ∃ (j : Nat) (kj : KeyInfo) (mj : MessageInfo), keys[j]? = some kj ∧ messages[j]? = some mj ∧ it = mkItem kj mj
            ∧ ∀ j' kj', j' < j → keys[j']? = some kj' → KeyInfo.key kj' ≠ it.id)
      ∧ (∀ k ∈ keys, KeyInfo.key k ∉ seen →
          ∃ it ∈ buildItems keys messages seen, it.id = KeyInfo.key k) := by
  induction keys with
  | nil =>
    intro messages seen _
    have hb : buildItems [] messages seen = [] := by cases messages <;> rfl
    rw [hb]
    exact ⟨by simp, by simp, by simp, by simp⟩
  | cons k ks ih =>
    intro messages seen hlen
    cases messages with
    | nil => simp at hlen
    | cons m ms =>
      have hlen' : ks.length = ms.length := by simpa using hlen
      by_cases hk : KeyInfo.key k ∈ seen
      · have hb : buildItems (k :: ks) (m :: ms) seen = buildItems ks ms seen := by
          rw [buildItems, if_pos hk]
        obtain ⟨ihnodup, ihseen, ihorig, ihcov⟩ := ih ms seen hlen'
        rw [hb]
        refine ⟨ihnodup, ihseen, ?_, ?_⟩
        · intro it hit
          obtain ⟨j, kj, mj, hkj, hmj, hitm, hfirst⟩ := ihorig it hit
          refine ⟨j + 1, kj, mj, by simpa using hkj, by simpa using hmj, hitm, ?_⟩
          intro j' kj' hj' hkj'
          cases j' with
          | zero =>
            have hkeq : k = kj' := by simpa using hkj'
            subst hkeq
            intro heq
            exact ihseen it hit (heq ▸ hk)
          | succ j'' => exact hfirst j'' kj' (by omega) (by simpa using hkj')
        · intro k' hk' hnot
          rcases List.mem_cons.mp hk' with rfl | hin
          · exact absurd hk hnot
          · exact ihcov k' hin hnot
      · have hb : buildItems (k :: ks) (m :: ms) seen
            = mkItem k m :: buildItems ks ms (KeyInfo.key k :: seen) := by
          rw [buildItems, if_neg hk]
        obtain ⟨ihnodup, ihseen, ihorig, ihcov⟩ := ih ms (KeyInfo.key k :: seen) hlen'
        rw [hb]
        refine ⟨?_, ?_, ?_, ?_⟩
        · rw [List.map_cons, List.nodup_cons]
          refine ⟨?_, ihnodup⟩
          intro hmem
          obtain ⟨it, hit, hid⟩ := List.mem_map.mp hmem
          exact ihseen it hit (hid ▸ List.mem_cons_self _ _)
        · intro it hit
          rcases List.mem_cons.mp hit with rfl | hin
          · exact hk
          · exact fun hmem => ihseen it hin (List.mem_cons_of_mem _ hmem)
        · intro it hit
          rcases List.mem_cons.mp hit with rfl | hin
          · exact ⟨0, k, m, by simp, by simp, rfl,
              fun j' kj' hj' _ => absurd hj' (Nat.not_lt_zero _)⟩
          · obtain ⟨j, kj, mj, hkj, hmj, hitm, hfirst⟩ := ihorig it hin
            refine ⟨j + 1, kj, mj, by simpa using hkj, by simpa using hmj, hitm, ?_⟩
            intro j' kj' hj' hkj'
            cases j' with
            | zero =>
              have hkeq : k = kj' := by simpa using hkj'
              subst hkeq
              intro heq
              exact ihseen it hin (heq ▸ List.mem_cons_self _ _)
            | succ j'' => exact hfirst j'' kj' (by omega) (by simpa using hkj')
        · intro k' hk' hnot
          rcases List.mem_cons.mp hk' with rfl | hin
          · exact ⟨mkItem k' m, List.mem_cons_self _ _, rfl⟩
          · by_cases heq : KeyInfo.key k' = KeyInfo.key k
            · exact ⟨mkItem k m, List.mem_cons_self _ _, heq.symm⟩
            · obtain ⟨it, hit, hid⟩ := ihcov k' hin (by
                intro hmem
                rcases List.mem_cons.mp hmem with h' | h'
                · exact heq h'
                · exact hnot h')
              exact ⟨it, List.mem_cons_of_mem _ hit, hid⟩

/-- `parseUnits` with `forceLanguage = false` on target-less items with
truthy ids and messages collects every decoded source text. -/
theorem parseUnits_sources (items : List Item)
    (h : ∀ it ∈ items, truthy it.target = none ∧ it.id ≠ [] ∧ it.message ≠ []) :
    ∀ acc, parseUnits false items acc
      = .ok (items.foldl (fun a it => setAssoc a it.id (decodeEntities it.message)) acc) := by
  induction items with
  | nil => intro acc; rfl
  | cons it rest ih =>
    intro acc
    obtain ⟨htgt, hid, hmsg⟩ := h it (List.mem_cons_self _ _)
    have hrest := ih (fun it' h' => h it' (List.mem_cons_of_mem _ h'))
    rw [List.foldl_cons, parseUnits, htgt]
    simp [truthy, hmsg, hid, hrest]

/-- The opening line that `addStringItem` writes for an item id
(src/main.ts 478). -/
def transUnitOpen (id_ : Str) : Str :=
  line 4 ("<trans-unit id=\"".toList ++ id_ ++ "\">".toList)

theorem ne_of_getElem?_ne {a b : Str} (j : Nat) (h : a[j]? ≠ b[j]?) : a ≠ b :=
  fun he => h (he ▸ rfl)

theorem transUnitOpen_getElem0 (kid : Str) : (transUnitOpen kid)[0]? = some ' ' := by
  rw [transUnitOpen, line, List.getElem?_append]
  simp [List.getElem?_replicate]

theorem transUnitOpen_getElem4 (kid : Str) : (transUnitOpen kid)[4]? = some '<' := by
  rw [transUnitOpen, line, List.getElem?_append]
  simp only [List.length_replicate, List.getElem?_replicate]
  norm_num

theorem transUnitOpen_getElem5 (kid : Str) : (transUnitOpen kid)[5]? = some 't' := by
  rw [transUnitOpen, line, List.getElem?_append]
  simp only [List.length_replicate, List.getElem?_replicate]
  norm_num

theorem transUnitOpen_getElem2 (kid : Str) : (transUnitOpen kid)[2]? = some ' ' := by
  rw [transUnitOpen, line, List.getElem?_append]
  simp [List.getElem?_replicate]

theorem line6_ne_transUnitOpen (c kid : Str) : line 6 c ≠ transUnitOpen kid := by
  refine ne_of_getElem?_ne 4 ?_
  rw [transUnitOpen_getElem4, line, List.getElem?_append]
  simp [List.getElem?_replicate]

theorem line2_ne_transUnitOpen (s kid : Str) (hc : s[0]? = some '<') :
    line 2 s ≠ transUnitOpen kid := by
  refine ne_of_getElem?_ne 2 ?_
  rw [transUnitOpen_getElem2, line, List.getElem?_append]
  simp [List.getElem?_replicate, hc]

theorem line0_ne_transUnitOpen (s kid : Str) (hc : s[0]? = some '<') :
    line 0 s ≠ transUnitOpen kid := by
  refine ne_of_getElem?_ne 0 ?_
  rw [transUnitOpen_getElem0, line]
  simp [hc]

theorem closeTU_ne_transUnitOpen (kid : Str) :
    line 4 "</trans-unit>".toList ≠ transUnitOpen kid := by
  refine ne_of_getElem?_ne 5 ?_
  rw [transUnitOpen_getElem5]
  decide

theorem transUnitOpen_inj {a b : Str} (h : transUnitOpen a = transUnitOpen b) :
    a = b := by
  rw [transUnitOpen, transUnitOpen, line, line] at h
  have h1 := List.append_cancel_left h
  have h2 := List.append_cancel_right h1
  exact List.append_cancel_left h2

/-- Each successfully rendered item contributes exactly one trans-unit
opening line, the one for its own id. -/
theorem count_addStringItem (it : Item) (kid : Str) (ls : List Str)
    (h : addStringItem it = .ok ls) :
    ls.count (transUnitOpen kid) = if it.id = kid then 1 else 0 := by
  rw [addStringItem] at h
  by_cases hbad : it.id = [] ∨ it.message = []
  · rw [if_pos hbad] at h; exact absurd h (by simp)
  · rw [if_neg hbad] at h
    have hls : ls = transUnitOpen it.id
        :: line 6 ("<source xml:lang=\"en\">".toList ++ it.message ++ "</source>".toList)
        :: ((match truthy it.comment with
            | some c => [line 6 ("<note>".toList ++ c ++ "</note>".toList)]
            | none => [])
          ++ (match truthy it.target with
            | some t => [line 6 ("<target>".toList ++ t ++ "</target>".toList)]
            | none => [])
          ++ [line 4 "</trans-unit>".toList]) := by
      have := h.symm
      simpa [transUnitOpen] using this
    subst hls
    have hopen : (transUnitOpen it.id == transUnitOpen kid)
        = (if it.id = kid then true else false) := by
      by_cases he : it.id = kid
      · subst he; simp
      · simp only [if_neg he, beq_eq_false_iff_ne, ne_eq]
        exact fun hc => he (transUnitOpen_inj hc)
    have hcnt1 : ∀ (seg : List Str), (∀ l ∈ seg, l ≠ transUnitOpen kid) →
        seg.count (transUnitOpen kid) = 0 := by
      intro seg hseg
      exact List.count_eq_zero.mpr (fun hm => hseg _ hm rfl)
    rw [List.count_cons, List.count_cons]
    rw [hcnt1 _ ?hmid]
    case hmid =>
      intro l hl
      rw [List.append_assoc] at hl
      rcases List.mem_append.mp hl with hl1 | hl2
      · rcases htc : truthy it.comment with _ | c <;> rw [htc] at hl1
        · simp at hl1
        · rcases List.mem_singleton.mp hl1 with rfl
          exact line6_ne_transUnitOpen _ _
      · rcases List.mem_append.mp hl2 with hl3 | hl4
        · rcases htt : truthy it.target with _ | t <;> rw [htt] at hl3
          · simp at hl3
          · rcases List.mem_singleton.mp hl3 with rfl
            exact line6_ne_transUnitOpen _ _
        · rcases List.mem_singleton.mp hl4 with rfl
          exact closeTU_ne_transUnitOpen _
    have hsrc : (line 6 ("<source xml:lang=\"en\">".toList ++ it.message
        ++ "</source>".toList) == transUnitOpen kid) = false := by
      rw [beq_eq_false_iff_ne]
      exact line6_ne_transUnitOpen _ _
    rw [hsrc, hopen]
    by_cases he : it.id = kid <;> simp [he]

theorem exceptBind_ok {α β : Type} (a : α) (f : α → Except Str β) :
    (Except.ok a >>= f) = f a := rfl

theorem exceptBind_error {α β : Type} (e : Str) (f : α → Except Str β) :
    ((Except.error e : Except Str α) >>= f) = Except.error e := rfl

/-- A list of successfully rendered items with distinct ids contributes
exactly one opening line per id present. -/
theorem count_itemsLines (items : List Item) :
    ∀ (ls : List Str), itemsLines items = .ok ls →
      (items.map Item.id).Nodup → ∀ kid,
      ls.count (transUnitOpen kid) = if kid ∈ items.map Item.id then 1 else 0 := by
  induction items with
  | nil =>
    intro ls h _ kid
    have : ls = [] := by simpa [itemsLines] using h.symm
    subst this
    simp
  | cons it rest ih =>
    intro ls h hnodup kid
    rw [List.map_cons, List.nodup_cons] at hnodup
    cases h1 : addStringItem it with
    | error e =>
      rw [itemsLines, h1, exceptBind_error] at h
      exact absurd h (by simp)
    | ok l1 =>
      cases h2 : itemsLines rest with
      | error e =>
        rw [itemsLines, h1, exceptBind_ok, h2, exceptBind_error] at h
        exact absurd h (by simp)
      | ok l2 =>
        rw [itemsLines, h1, exceptBind_ok, h2, exceptBind_ok] at h
        have hls : ls = l1 ++ l2 := by simpa using h.symm
        subst hls
        rw [List.count_append, count_addStringItem it kid l1 h1, ih l2 h2 hnodup.2 kid,
          List.map_cons]
        by_cases he : it.id = kid
        · subst he
          rw [if_pos rfl, if_neg hnodup.1, if_pos (List.mem_cons_self _ _)]
        · rw [if_neg he]
          by_cases hm : kid ∈ rest.map Item.id
          · rw [if_pos hm, if_pos (List.mem_cons_of_mem _ hm)]
          · rw [if_neg hm, if_neg (by
              intro hcm
              rcases List.mem_cons.mp hcm with h' | h'
              · exact he h'.symm
              · exact hm h')]

theorem getElem0_append (a b : Str) (c : Char) (h : a[0]? = some c) :
    (a ++ b)[0]? = some c := by
  rw [List.getElem?_append]
  have : 0 < a.length := (List.getElem?_eq_some.mp h).1
  rw [if_pos this]
  exact h

/-- C4: when `addFile` receives duplicate key ids, only the first
occurrence of each id is kept in the file group and appears (exactly
once) in the serialized document; later occurrences are silently
skipped. -/
theorem c4_addFile_dedup (x : XLF) (original : Str) (keys : List KeyInfo)
    (messages : List MessageInfo) (x' : XLF)
    (hne : keys ≠ []) (hlen : keys.length = messages.length)
    (hadd : x.addFile original keys messages = .ok x') :
    ∃ items, lookupAssoc x'.files original = some items
      ∧ ((items.map Item.id).Nodup)
      ∧ (∀ it ∈ items,
          ∃ (j : Nat) (kj : KeyInfo) (mj : MessageInfo), keys[j]? = some kj
            ∧ messages[j]? = some mj ∧ it = mkItem kj mj
            ∧ ∀ j' kj', j' < j → keys[j']? = some kj' → KeyInfo.key kj' ≠ it.id)
      ∧ (∀ k ∈ keys, ∃ it ∈ items, it.id = KeyInfo.key k)
      ∧ (x.files = [] → ∀ lines, x'.toLines = .ok lines → ∀ kid,
          lines.count (transUnitOpen kid)
            = if kid ∈ keys.map KeyInfo.key then 1 else 0) := by
  have hlen0 : ¬ keys.length = 0 := fun h0 => hne (List.length_eq_zero.mp h0)
  rw [XLF.addFile, if_neg hlen0, if_neg (by simp [hlen])] at hadd
  have hx : x' = { x with files := setAssoc x.files original (buildItems keys messages []) } := by
    simpa using hadd.symm
  subst hx
  obtain ⟨hnodup, hseen, horigin, hcov⟩ := buildItems_spec keys messages [] hlen
  refine ⟨buildItems keys messages [], lookupAssoc_setAssoc_self _ _ _, hnodup, horigin,
    fun k hk => hcov k hk (List.not_mem_nil _), ?_⟩
  intro hxf lines hlines kid
  rw [XLF.toLines] at hlines
  simp only at hlines
  rw [hxf] at hlines
  rw [show setAssoc ([] : List (Str × List Item)) original (buildItems keys messages [])
    = [(original, buildItems keys messages [])] from rfl] at hlines
  cases hI : itemsLines (buildItems keys messages []) with
  | error e =>
    rw [groupsLines, hI, exceptBind_error, exceptBind_error] at hlines
    exact absurd hlines (by simp)
  | ok ls =>
    rw [groupsLines, hI, exceptBind_ok, groupsLines, exceptBind_ok, exceptBind_ok] at hlines
    have hlines' : lines = headerLines
        ++ (fileOpenLine x.target original :: (ls ++ [line 2 "</body></file>".toList]))
        ++ [footerLine] := by simpa using hlines.symm
    subst hlines'
    have h1 : (headerLines.count (transUnitOpen kid)) = 0 := by
      apply List.count_eq_zero.mpr
      intro hm
      rw [headerLines] at hm
      rcases List.mem_cons.mp hm with he | hm2
      · exact line0_ne_transUnitOpen _ kid (by decide) he.symm
      · rcases List.mem_singleton.mp hm2 with he2
        exact line0_ne_transUnitOpen _ kid (by decide) he2.symm
    have h2 : fileOpenLine x.target original ≠ transUnitOpen kid := by
      rw [fileOpenLine]
      apply line2_ne_transUnitOpen
      apply getElem0_append
      apply getElem0_append
      apply getElem0_append
      apply getElem0_append
      decide
    have h3 : line 2 "</body></file>".toList ≠ transUnitOpen kid := by
      apply line2_ne_transUnitOpen
      decide
    have h4 : footerLine ≠ transUnitOpen kid := by
      rw [footerLine]
      apply line0_ne_transUnitOpen
      decide
    have h5 : ls.count (transUnitOpen kid)
        = if kid ∈ (buildItems keys messages []).map Item.id then 1 else 0 :=
      count_itemsLines _ ls hI hnodup kid
    have hiff : kid ∈ (buildItems keys messages []).map Item.id
        ↔ kid ∈ keys.map KeyInfo.key := by
      constructor
      · intro hm
        obtain ⟨it, hit, hid⟩ := List.mem_map.mp hm
        obtain ⟨j, kj, mj, hkj, _, hitval, _⟩ := horigin it hit
        have : KeyInfo.key kj = kid := by rw [← hid, hitval]; rfl
        exact this ▸ List.mem_map_of_mem _ (List.getElem?_mem hkj)
      · intro hm
        obtain ⟨k, hk, hkey⟩ := List.mem_map.mp hm
        obtain ⟨it, hit, hid⟩ := hcov k hk (List.not_mem_nil _)
        exact List.mem_map.mpr ⟨it, hit, by rw [hid, hkey]⟩
    rw [List.count_append, List.count_append, List.count_cons, List.count_append,
      List.count_singleton, List.count_singleton, h1, h5,
      beq_eq_false_iff_ne.mpr h2, beq_eq_false_iff_ne.mpr h3,
      beq_eq_false_iff_ne.mpr h4]
    by_cases hm : kid ∈ keys.map KeyInfo.key
    · rw [if_pos hm, if_pos (hiff.mpr hm)]
      norm_num
    · rw [if_neg hm, if_neg (fun hc => hm (hiff.mp hc))]
      norm_num

/-- Witness for C4 on the duplicate input keys `a, a`. -/
theorem c4_addFile_dedup_witness :
    ([KeyInfo.plain ['a'], KeyInfo.plain ['a']] ≠ ([] : List KeyInfo))
      ∧ ([KeyInfo.plain ['a'], KeyInfo.plain ['a']].length
          = [MessageInfo.plain ['x'], MessageInfo.plain ['y']].length)
      ∧ ((XLF.new ['p'] none).addFile ['f'] [KeyInfo.plain ['a'], KeyInfo.plain ['a']]
            [MessageInfo.plain ['x'], MessageInfo.plain ['y']]
          = .ok (XLF.mk ['p'] none
              [(['f'], [mkItem (KeyInfo.plain ['a']) (MessageInfo.plain ['x'])])]))
      ∧ (∃ items, lookupAssoc (XLF.mk ['p'] none
            [(['f'], [mkItem (KeyInfo.plain ['a']) (MessageInfo.plain ['x'])])]).files ['f']
              = some items
          ∧ ((items.map Item.id).Nodup)
          ∧ (∀ it ∈ items,
              ∃ (j : Nat) (kj : KeyInfo) (mj : MessageInfo),
                [KeyInfo.plain ['a'], KeyInfo.plain ['a']][j]? = some kj
                ∧ [MessageInfo.plain ['x'], MessageInfo.plain ['y']][j]? = some mj
                ∧ it = mkItem kj mj
                ∧ ∀ j' kj', j' < j →
                    [KeyInfo.plain ['a'], KeyInfo.plain ['a']][j']? = some kj' →
                    KeyInfo.key kj' ≠ it.id)
          ∧ (∀ k ∈ [KeyInfo.plain ['a'], KeyInfo.plain ['a']],
              ∃ it ∈ items, it.id = KeyInfo.key k)
          ∧ ((XLF.new ['p'] none).files = [] → ∀ lines,
              (XLF.mk ['p'] none
                [(['f'], [mkItem (KeyInfo.plain ['a']) (MessageInfo.plain ['x'])])]).toLines
                = .ok lines → ∀ kid,
              lines.count (transUnitOpen kid)
                = if kid ∈ [KeyInfo.plain ['a'], KeyInfo.plain ['a']].map KeyInfo.key
                  then 1 else 0)) := by
  refine ⟨by decide, by decide, rfl, ?_⟩
  exact c4_addFile_dedup (XLF.new ['p'] none) ['f'] _ _ _ (by decide) (by decide) rfl

theorem zipWith_key_ids : ∀ (keys : List KeyInfo) (messages : List MessageInfo),
    keys.length = messages.length →
    (List.zipWith mkItem keys messages).map Item.id = keys.map KeyInfo.key := by
  intro keys
  induction keys with
  | nil => intro messages _; rfl
  | cons k ks ih =>
    intro messages hlen
    cases messages with
    | nil => simp at hlen
    | cons m ms =>
      rw [List.zipWith_cons_cons, List.map_cons, List.map_cons,
        ih ms (by simpa using hlen)]
      rfl

/-- C1 counterexample: with the duplicate keys `a, a` and messages
`x, y` (equal lengths) the serialized-and-parsed message map sends `a`
to `x`; it does not map `keys[1] = a` to `messages[1] = y`. -/
theorem c1_roundTrip_counterexample :
    ([KeyInfo.plain ['a'], KeyInfo.plain ['a']].length
        = [MessageInfo.plain ['x'], MessageInfo.plain ['y']].length)
    ∧ ((XLF.new ['p'] none).addFile ['f']
          [KeyInfo.plain ['a'], KeyInfo.plain ['a']]
          [MessageInfo.plain ['x'], MessageInfo.plain ['y']]).bind
        (fun x => (x.toString).bind (fun _ => x.parse false))
      = .ok [ParsedXLF.mk [(['a'], ['x'])] ['f'] none]
    ∧ lookupAssoc ([(['a'], ['x'])] : List (Str × Str))
        (KeyInfo.key (KeyInfo.plain ['a']))
      ≠ some (MessageInfo.message (MessageInfo.plain ['y'])) := by
  refine ⟨rfl, rfl, by decide⟩

/-- C1 (amended): for a nonempty keys list and a messages list of equal
length, with pairwise distinct nonempty key ids, nonempty messages
stable under the entity round-trip, and a nonempty original path,
serializing the document built by `addFile` with `toString` succeeds and
parsing with `forceLanguage = false` yields a message map sending
`keys[i]` to `messages[i]` for every index.  (With an empty keys list
the document has no file group and the real parse rejects it outright,
src/main.ts 536-539.) -/
theorem c1_addFile_toString_parse_roundTrip (p original : Str)
    (keys : List KeyInfo) (messages : List MessageInfo) (x' : XLF)
    (horig : original ≠ [])
    (hne : keys ≠ [])
    (hlen : keys.length = messages.length)
    (hnodup : (keys.map KeyInfo.key).Nodup)
    (hkeys : ∀ k ∈ keys, KeyInfo.key k ≠ [])
    (hmsgs : ∀ m ∈ messages, MessageInfo.message m ≠ []
      ∧ decodeEntities (encodeEntities (MessageInfo.message m)) = MessageInfo.message m)
    (hadd : (XLF.new p none).addFile original keys messages = .ok x') :
    (∃ out, x'.toString = .ok out)
    ∧ ∃ res, x'.parse false = .ok res
        ∧ ∀ (i : Nat) (ki : KeyInfo) (mi : MessageInfo),
            keys[i]? = some ki → messages[i]? = some mi →
            ∃ pf ∈ res, lookupAssoc pf.messages (KeyInfo.key ki)
              = some (MessageInfo.message mi) := by
  rw [XLF.addFile, if_neg (fun h0 => hne (List.length_eq_zero.mp h0)),
    if_neg (by simp [hlen])] at hadd
  have hitems : buildItems keys messages [] = List.zipWith mkItem keys messages :=
    buildItems_eq_zipWith keys messages [] (fun k _ => List.not_mem_nil _) hnodup
  have hx : x' = XLF.mk p none
      [(original, List.zipWith mkItem keys messages)] := by
    rw [hitems] at hadd
    simpa [XLF.new, setAssoc] using hadd.symm
  subst hx
  have hgooditem : ∀ it ∈ List.zipWith mkItem keys messages,
      truthy it.target = none ∧ it.id ≠ [] ∧ it.message ≠ [] := by
    intro it hit
    obtain ⟨k, m, hk, hm, rfl⟩ := exists_of_mem_zipWith hit
    exact ⟨rfl, hkeys k hk, encodeEntities_ne_nil _ (hmsgs m hm).1⟩
  obtain ⟨ls, hls⟩ := itemsLines_ok _ (fun it hit =>
    fun hbad => by
      obtain ⟨_, hid, hmsg⟩ := hgooditem it hit
      rcases hbad with h' | h'
      · exact hid h'
      · exact hmsg h')
  have hglines : groupsLines none [(original, List.zipWith mkItem keys messages)]
      = .ok (fileOpenLine none original
          :: (ls ++ (line 2 "</body></file>".toList :: []))) := by
    rw [groupsLines, hls, exceptBind_ok, groupsLines, exceptBind_ok]
  have hzne : List.zipWith mkItem keys messages ≠ [] := by
    obtain ⟨k0, ks0, rfl⟩ : ∃ k0 ks0, keys = k0 :: ks0 := by
      cases keys with
      | nil => exact absurd rfl hne
      | cons k0 ks0 => exact ⟨k0, ks0, rfl⟩
    cases messages with
    | nil => simp at hlen
    | cons m0 ms0 => simp
  constructor
  · have hstr : XLF.toString (XLF.mk p none
        [(original, List.zipWith mkItem keys messages)])
        = .ok (List.intercalate crlf (headerLines
            ++ (fileOpenLine none original
              :: (ls ++ (line 2 "</body></file>".toList :: [])))
            ++ [footerLine])) := by
      rw [XLF.toString, XLF.toLines]
      simp only
      rw [hglines, exceptBind_ok]
      rfl
    exact ⟨_, hstr⟩
  · have hunits := parseUnits_sources _ hgooditem []
    refine ⟨[ParsedXLF.mk
      ((List.zipWith mkItem keys messages).foldl
        (fun a it => setAssoc a it.id (decodeEntities it.message)) [])
      original none], ?_, ?_⟩
    · rw [XLF.parse, if_neg (by simp)]
      rw [parseFiles, if_neg horig, if_neg (by simp), if_neg hzne, hunits,
        exceptBind_ok, parseFiles, exceptBind_ok]
      rfl
    · intro i ki mi hki hmi
      refine ⟨_, List.mem_cons_self _ _, ?_⟩
      have hit : (List.zipWith mkItem keys messages)[i]? = some (mkItem ki mi) := by
        simp [List.getElem?_zipWith, hki, hmi]
      have hmem : mkItem ki mi ∈ List.zipWith mkItem keys messages :=
        List.getElem?_mem hit
      have hidsnodup : ((List.zipWith mkItem keys messages).map Item.id).Nodup := by
        rw [zipWith_key_ids keys messages hlen]
        exact hnodup
      have hlook := lookupAssoc_foldl_setAssoc _ hidsnodup [] _ hmem
      rw [show (mkItem ki mi).message = encodeEntities (MessageInfo.message mi)
          from rfl] at hlook
      rw [(hmsgs mi (List.getElem?_mem hmi)).2] at hlook
      exact hlook

/-- Witness for C1's amended theorem on keys `a, b` and messages `x, &`. -/
theorem c1_addFile_toString_parse_roundTrip_witness :
    ((['f'] : Str) ≠ []
      ∧ [KeyInfo.plain ['a'], KeyInfo.plain ['b']] ≠ ([] : List KeyInfo)
      ∧ [KeyInfo.plain ['a'], KeyInfo.plain ['b']].length
          = [MessageInfo.plain ['x'], MessageInfo.plain ['&']].length
      ∧ (([KeyInfo.plain ['a'], KeyInfo.plain ['b']].map KeyInfo.key).Nodup)
      ∧ (∀ k ∈ [KeyInfo.plain ['a'], KeyInfo.plain ['b']], KeyInfo.key k ≠ [])
      ∧ (∀ m ∈ [MessageInfo.plain ['x'], MessageInfo.plain ['&']],
          MessageInfo.message m ≠ []
          ∧ decodeEntities (encodeEntities (MessageInfo.message m))
              = MessageInfo.message m))
    ∧ ((∃ out, (XLF.mk ['p'] none [(['f'],
            [mkItem (KeyInfo.plain ['a']) (MessageInfo.plain ['x']),
             mkItem (KeyInfo.plain ['b']) (MessageInfo.plain ['&'])])]).toString
          = .ok out)
      ∧ ∃ res, (XLF.mk ['p'] none [(['f'],
            [mkItem (KeyInfo.plain ['a']) (MessageInfo.plain ['x']),
             mkItem (KeyInfo.plain ['b']) (MessageInfo.plain ['&'])])]).parse false
          = .ok res
        ∧ ∀ (i : Nat) (ki : KeyInfo) (mi : MessageInfo),
            [KeyInfo.plain ['a'], KeyInfo.plain ['b']][i]? = some ki →
            [MessageInfo.plain ['x'], MessageInfo.plain ['&']][i]? = some mi →
            ∃ pf ∈ res, lookupAssoc pf.messages (KeyInfo.key ki)
              = some (MessageInfo.message mi)) :=
  ⟨⟨by decide, by decide, by decide, by decide, by decide, by decide⟩,
    c1_addFile_toString_parse_roundTrip ['p'] ['f'] _ _ _ (by decide) (by decide)
      (by decide) (by decide) (by decide) (by decide) rfl⟩

theorem exceptMap_ok {α β : Type} (a : α) (f : α → β) :
    (Except.ok a : Except Str α).map f = .ok (f a) := rfl

theorem exceptMap_error {α β : Type} (e : Str) (f : α → β) :
    (Except.error e : Except Str α).map f = .error e := rfl

theorem updateFirst_map_id (items : List Item) (k t : Str) :
    (updateFirst items k t).map Item.id = items.map Item.id := by
  induction items with
  | nil => rfl
  | cons it rest ih =>
    rw [updateFirst]
    by_cases h : it.id = k
    · rw [if_pos h]; rfl
    · rw [if_neg h, List.map_cons, List.map_cons, ih]

theorem find?_id_isSome (items : List Item) (k : Str) :
    (items.find? (fun it => it.id == k)).isSome = true ↔ ∃ it ∈ items, it.id = k := by
  rw [List.find?_isSome]
  constructor
  · rintro ⟨it, hm, hp⟩; exact ⟨it, hm, by simpa using hp⟩
  · rintro ⟨it, hm, hp⟩; exact ⟨it, hm, by simpa using hp⟩

theorem forall_id_ne_updateFirst (items : List Item) (k t q1 : Str)
    (h : ∀ it ∈ items, it.id ≠ q1) :
    ∀ it ∈ updateFirst items k t, it.id ≠ q1 := by
  intro it hm he
  have hmm : q1 ∈ (updateFirst items k t).map Item.id := he ▸ List.mem_map_of_mem _ hm
  rw [updateFirst_map_id] at hmm
  obtain ⟨it', hm', hid'⟩ := List.mem_map.mp hmm
  exact h it' hm' hid'

theorem forall_id_ne_of_updateFirst (items : List Item) (k t q1 : Str)
    (h : ∀ it ∈ updateFirst items k t, it.id ≠ q1) :
    ∀ it ∈ items, it.id ≠ q1 := by
  intro it hm he
  have hmm : q1 ∈ items.map Item.id := he ▸ List.mem_map_of_mem _ hm
  rw [← updateFirst_map_id items k t] at hmm
  obtain ⟨it', hm', hid'⟩ := List.mem_map.mp hmm
  exact h it' hm' hid'

/-- The package overlay loop succeeds exactly when every translation key
occurs among the item ids. -/
theorem applyPackage_ok_iff (original : Str) :
    ∀ (ts : PackageJsonMessageBundle) (items : List Item),
      (∃ r, applyPackage original items ts = .ok r)
        ↔ (∀ q ∈ ts, ∃ it ∈ items, it.id = q.1) := by
  intro ts
  induction ts with
  | nil =>
    intro items
    simp [applyPackage]
  | cons kv rest ih =>
    intro items
    obtain ⟨k, v⟩ := kv
    rw [applyPackage]
    by_cases hf : (items.find? (fun it => it.id == k)).isSome = true
    · rw [if_pos hf, ih (updateFirst items k (encodeEntities v))]
      constructor
      · intro hall q hq
        rcases List.mem_cons.mp hq with rfl | hq'
        · exact (find?_id_isSome items k).mp hf
        · obtain ⟨it, hm, hid⟩ := hall q hq'
          have hmm : q.1 ∈ items.map Item.id := by
            rw [← updateFirst_map_id items k (encodeEntities v)]
            exact hid ▸ List.mem_map_of_mem _ hm
          obtain ⟨it', hm', hid'⟩ := List.mem_map.mp hmm
          exact ⟨it', hm', hid'⟩
      · intro hall q hq
        obtain ⟨it, hm, hid⟩ := hall q (List.mem_cons_of_mem _ hq)
        have hmm : q.1 ∈ (updateFirst items k (encodeEntities v)).map Item.id := by
          rw [updateFirst_map_id]
          exact hid ▸ List.mem_map_of_mem _ hm
        obtain ⟨it', hm', hid'⟩ := List.mem_map.mp hmm
        exact ⟨it', hm', hid'⟩
    · rw [if_neg hf]
      constructor
      · rintro ⟨r, hr⟩
        exact absurd hr (by simp)
      · intro hall
        exact absurd ((find?_id_isSome items k).mpr (hall (k, v) (List.mem_cons_self _ _)))
          hf

/-- When some translation key misses every item id, the overlay loop
raises the un-matching-key error for a genuinely missing key. -/
theorem applyPackage_error (original : Str) :
    ∀ (ts : PackageJsonMessageBundle) (items : List Item),
      (∃ q ∈ ts, ∀ it ∈ items, it.id ≠ q.1) →
      ∃ k, (∀ it ∈ items, it.id ≠ k)
        ∧ applyPackage original items ts = .error (unmatchingKeyMsg k original) := by
  intro ts
  induction ts with
  | nil => intro items h; simp at h
  | cons kv rest ih =>
    intro items h
    obtain ⟨k, v⟩ := kv
    by_cases hf : (items.find? (fun it => it.id == k)).isSome = true
    · obtain ⟨q, hq, hqmiss⟩ := h
      rcases List.mem_cons.mp hq with rfl | hq'
      · exfalso
        obtain ⟨it, hm, hid⟩ := (find?_id_isSome items k).mp hf
        exact hqmiss it hm hid
      · obtain ⟨k', hk', herr⟩ := ih (updateFirst items k (encodeEntities v))
          ⟨q, hq', forall_id_ne_updateFirst items k (encodeEntities v) q.1 hqmiss⟩
        refine ⟨k', forall_id_ne_of_updateFirst items k (encodeEntities v) k' hk', ?_⟩
        rw [applyPackage, if_pos hf]
        exact herr
    · refine ⟨k, ?_, ?_⟩
      · intro it hm he
        exact hf ((find?_id_isSome items k).mpr ⟨it, hm, he⟩)
      · rw [applyPackage, if_neg hf]

/-- C5: `setLanguageBundle` and `setLanguagePackage` raise a fatal error
exactly when the named file group does not exist, the translation is
absent, or the translation length (array form) or key set (map form)
does not match the file group; additionally, in the map form, a
translation key not present among the group's item ids raises the
un-matching-key-in-original error. -/
theorem c5_setLanguage_errors :
    (∀ (x : XLF) (original : Str) (tr : Option (List Str)),
      (∃ y, x.setLanguageBundle original tr = .ok y)
        ↔ ∃ file, lookupAssoc x.files original = some file
            ∧ ∃ ts, tr = some ts ∧ file.length = ts.length)
    ∧ (∀ (x : XLF) (original : Str) (tr : Option PackageJsonMessageBundle),
      (∃ y, x.setLanguagePackage original tr = .ok y)
        ↔ ∃ file, lookupAssoc x.files original = some file
            ∧ ∃ ts, tr = some ts ∧ file.length = ts.length
              ∧ ∀ q ∈ ts, ∃ it ∈ file, it.id = q.1)
    ∧ (∀ (x : XLF) (original : Str) (file : List Item)
        (ts : PackageJsonMessageBundle),
        lookupAssoc x.files original = some file → file.length = ts.length →
        (∃ q ∈ ts, ∀ it ∈ file, it.id ≠ q.1) →
        ∃ k, (∀ it ∈ file, it.id ≠ k)
          ∧ x.setLanguagePackage original (some ts)
              = .error (unmatchingKeyMsg k original)) := by
  refine ⟨?_, ?_, ?_⟩
  · intro x original tr
    cases hf : lookupAssoc x.files original with
    | none => simp [XLF.setLanguageBundle, hf]
    | some file =>
      cases tr with
      | none => simp [XLF.setLanguageBundle, hf]
      | some ts =>
        by_cases hl : file.length = ts.length
        · simp [XLF.setLanguageBundle, hf, hl]
        · simp [XLF.setLanguageBundle, hf, hl]
  · intro x original tr
    cases hf : lookupAssoc x.files original with
    | none => simp [XLF.setLanguagePackage, hf]
    | some file =>
      cases tr with
      | none => simp [XLF.setLanguagePackage, hf]
      | some ts =>
        by_cases hl : file.length = ts.length
        · rw [XLF.setLanguagePackage, hf]
          simp only [hl, ite_false, if_neg (by simp : ¬ ts.length ≠ ts.length)]
          cases hA : applyPackage original file ts with
          | ok r =>
            rw [exceptMap_ok]
            simp only [Except.ok.injEq, exists_eq']
            constructor
            · intro _
              exact ⟨file, rfl, ts, rfl, hl,
                (applyPackage_ok_iff original ts file).mp ⟨r, hA⟩⟩
            · intro _; trivial
          | error e =>
            rw [exceptMap_error]
            constructor
            · rintro ⟨y, hy⟩
              exact absurd hy (by simp)
            · rintro ⟨file', hfile', ts', hts', _, hall⟩
              exfalso
              rw [Option.some.injEq] at hfile' hts'
              subst hfile'
              subst hts'
              obtain ⟨r, hr⟩ := (applyPackage_ok_iff original ts file).mpr hall
              rw [hA] at hr
              exact absurd hr (by simp)
        · simp [XLF.setLanguagePackage, hf, hl]
  · intro x original file ts hf hl hmiss
    obtain ⟨k, hk, herr⟩ := applyPackage_error original ts file hmiss
    refine ⟨k, hk, ?_⟩
    rw [XLF.setLanguagePackage, hf]
    simp only [if_neg (by simp [hl] : ¬ file.length ≠ ts.length)]
    rw [herr, exceptMap_error]

/-- Witness for C5: a matching overlay succeeds and a missing key yields
the un-matching-key error. -/
theorem c5_setLanguage_errors_witness :
    (∃ y, (XLF.mk ['p'] none
        [(['f'], [Item.mk ['a'] ['x'] none none])]).setLanguageBundle
        ['f'] (some [['t']]) = .ok y)
    ∧ (∃ k, (∀ it ∈ [Item.mk ['a'] ['x'] none none], it.id ≠ k)
        ∧ (XLF.mk ['p'] none
            [(['f'], [Item.mk ['a'] ['x'] none none])]).setLanguagePackage
            ['f'] (some [(['b'], ['t'])])
            = .error (unmatchingKeyMsg k ['f'])) := by
  constructor
  · exact (c5_setLanguage_errors.1 _ _ _).mpr ⟨_, rfl, _, rfl, rfl⟩
  · exact c5_setLanguage_errors.2.2 _ ['f'] _ [(['b'], ['t'])] rfl rfl
      ⟨(['b'], ['t']), by decide, by decide⟩

/-- `path.basename` (Node, external): the component after the last
separator. -/
def pathBasename (s : Str) : Str :=
  (s.reverse.takeWhile (fun c => ¬ c = '/')).reverse

/-- `path.join(a, b)` (Node, external) for a base without trailing
separator. -/
def pathJoin (a b : Str) : Str := a ++ '/' :: b

/-- Greedy backtracking of `(.*)\.` before `json`: the largest `k ≤ n`
such that `.json` starts at offset `k` of `tail`. -/
def findLastDotJson (tail : Str) : Nat → Option Nat
  | 0 => if ".json".toList.isPrefixOf tail then some 0 else none
  | k + 1 =>
    if ".json".toList.isPrefixOf (tail.drop (k + 1)) then some (k + 1)
    else findLastDotJson tail k

/-- Matching `(?:(.*)\.)?json` at the start of `tail` (trailing text
allowed, as the regexes are unanchored), returning the language capture:
the regex engine tries the optional group with the longest capture
first, then drops the group. -/
def matchLangJson (tail : Str) : Option (Option Str) :=
  match findLastDotJson tail tail.length with
  | some k => some (some (tail.take k))
  | none => if "json".toList.isPrefixOf tail then some none else none

/-- The leftmost match of `/.nls\.(?:(.*)\.)?json/` (src/main.ts 225)
against a basename: any one character, the literal `nls.`, then
`matchLangJson`. -/
def matchNlsBasename : Str → Option (Option Str)
  | [] => none
  | _ :: rest =>
    match (if "nls.".toList.isPrefixOf rest then matchLangJson (rest.drop 4) else none) with
    | some r => some r
    | none => matchNlsBasename rest

/-- Whether `/\.nls\.(?:.*\.)?json/` matches at offset `m` of `s`: the
tail of the module-key regex of src/main.ts 220. -/
def moduleTailAt (s : Str) (m : Nat) : Bool :=
  ".nls.".toList.isPrefixOf (s.drop m) && (matchLangJson (s.drop (m + 5))).isSome

/-- Greedy leading group of `/(.*)\.nls\.(?:.*\.)?json/`: the largest
split position whose tail matches. -/
def findModuleSplit (s : Str) : Nat → Option Nat
  | 0 => if moduleTailAt s 0 then some 0 else none
  | m + 1 => if moduleTailAt s (m + 1) then some (m + 1) else findModuleSplit s m

/-- `getModuleKey` (src/main.ts 219-221): the relative path up to the
matched `.nls....json` suffix, backslashes replaced by forward slashes;
`none` models the runtime crash of the non-null assertion `!` when the
pattern does not match. -/
def getModuleKey (relativeFile : Str) : Option Str :=
  (findModuleSplit relativeFile relativeFile.length).map
    (fun m => (relativeFile.take m).map (fun c => if c = '\\' then '/' else c))

/-- A vinyl record as consumed by `bundleLanguageFiles`: the contents of
an nls fragment parse (externally, `JSON.parse`) to an array of message
strings. -/
structure NlsFile where
  path : Str
  relative : Str
  base : Str
  contents : List Str
deriving DecidableEq

/-- The per-language accumulator value of `bundleLanguageFiles`
(src/main.ts 214-217). -/
structure BundleMapValue where
  base : Str
  content : List (Str × List Str)
deriving DecidableEq

/-- Output records of `bundleLanguageFiles`: an input file passed
through, or a produced `nls.bundle*.json` file with structured JSON
content. -/
inductive BundleOut
  | passthrough (f : NlsFile)
  | bundleFile (path : Str) (content : List (Str × List Str))
deriving DecidableEq

/-- The data-event function of `bundleLanguageFiles` (src/main.ts
223-240): updated state plus emitted records; `none` models the crash of
`getModuleKey` when the relative path does not match its pattern. -/
def bundleLanguageFilesStep (st : List (Str × BundleMapValue)) (f : NlsFile) :
    Option (List (Str × BundleMapValue) × List BundleOut) :=
  match matchNlsBasename (pathBasename f.path) with
  | none => some (st, [BundleOut.passthrough f])
  | some langOpt =>
    match getModuleKey f.relative with
    | none => none
    | some key =>
      let language := match langOpt with
        | some l => if l = [] then "en".toList else l
        | none => "en".toList
      let bundle := (lookupAssoc st language).getD ⟨f.base, []⟩
      some (setAssoc st language ⟨bundle.base, setAssoc bundle.content key f.contents⟩,
        [])

/-- The end-event function of `bundleLanguageFiles` (src/main.ts
241-253): one bundle file per accumulated language, `nls.bundle.json`
for the default language `en`. -/
def bundleLanguageFilesEnd (st : List (Str × BundleMapValue)) : List BundleOut :=
  st.map (fun q =>
    BundleOut.bundleFile
      (pathJoin q.2.base ("nls.bundle.".toList
        ++ (if q.1 = "en".toList then [] else q.1 ++ ['.']) ++ "json".toList))
      q.2.content)

/-- Driving `bundleLanguageFiles` over a complete input stream: fold the
data events, then flush. -/
def bundleLanguageFilesRun (inputs : List NlsFile) : Option (List BundleOut) :=
  (inputs.foldlM (fun acc f =>
      (bundleLanguageFilesStep acc.1 f).map (fun r => (r.1, acc.2 ++ r.2)))
    (([] : List (Str × BundleMapValue)), ([] : List BundleOut))).map
    (fun acc => acc.2 ++ bundleLanguageFilesEnd acc.1)

/-- C6: fed the fragments `a.nls.json`, `a.nls.fr.json` and `b.nls.json`,
the language bundle aggregator emits, at end of stream, exactly two
files: `nls.bundle.json` mapping module keys `a` and `b`, and
`nls.bundle.fr.json` mapping module key `a` only. -/
theorem c6_bundleLanguageFiles :
    bundleLanguageFilesRun
      [NlsFile.mk "/base/a.nls.json".toList "a.nls.json".toList "/base".toList [['1']],
       NlsFile.mk "/base/a.nls.fr.json".toList "a.nls.fr.json".toList "/base".toList
         [['2']],
       NlsFile.mk "/base/b.nls.json".toList "b.nls.json".toList "/base".toList [['3']]]
      = some [BundleOut.bundleFile "/base/nls.bundle.json".toList
                [(['a'], [['1']]), (['b'], [['3']])],
              BundleOut.bundleFile "/base/nls.bundle.fr.json".toList
                [(['a'], [['2']])]] := by
  rfl

/-- The `.nls.metadata.json` file-name constant (src/main.ts 30). -/
def NLS_METADATA_JSON : Str := ".nls.metadata.json".toList

/-- The suffix routing test of src/main.ts 128 and 272: the basename is
long enough and its last characters equal `.nls.metadata.json`. -/
def hasMetadataSuffix (basename : Str) : Bool :=
  decide (NLS_METADATA_JSON.length ≤ basename.length)
    && (basename.drop (basename.length - NLS_METADATA_JSON.length) == NLS_METADATA_JSON)

/-- Modelled from the spec: `SingleMetaDataFile` from `./lib` (not under
src/): a per-file message bundle plus the normalized source file path
(spec §3). -/
structure SingleMetaDataFile where
  keys : List KeyInfo
  messages : List Str
  filePath : Str
deriving DecidableEq

/-- Modelled from the spec: the `MetaDataBundler` accumulator from
`./lib` (not under src/): fixed id and outDir, plus the growing content
map from file path to keys/messages (spec §4.1). -/
structure MetaDataBundlerState where
  id : Str
  outDir : Str
  content : List (Str × (List KeyInfo × List Str))
deriving DecidableEq

/-- Modelled from the spec: `MetaDataBundler.add` stores the entry's
keys and messages under its file path (spec §4.1). -/
def MetaDataBundler.add (b : MetaDataBundlerState) (e : SingleMetaDataFile) :
    MetaDataBundlerState :=
  { b with content := setAssoc b.content e.filePath (e.keys, e.messages) }

/-- A vinyl record as consumed by `bundleMetaDataFiles`; a recognized
file's contents parse (externally) to a `SingleMetaDataFile`, which the
source uses without validation. -/
structure MetaFile where
  relative : Str
  base : Str
  contents : SingleMetaDataFile
deriving DecidableEq

/-- The data-event function of `bundleMetaDataFiles` (src/main.ts
126-145): state is the optional base plus the bundler accumulator; a
file whose basename lacks the `.nls.metadata.json` suffix passes through
with the state untouched. -/
def bundleMetaDataFilesStep (st : Option Str × MetaDataBundlerState) (f : MetaFile) :
    (Option Str × MetaDataBundlerState) × List MetaFile :=
  if ¬ hasMetadataSuffix (pathBasename f.relative) = true then (st, [f])
  else ((some (st.1.getD f.base), MetaDataBundler.add st.2 f.contents), [])

/-- Modelled from the spec: `JavaScriptMessageBundle` from `./lib` (not
under src/): a resolved bundle with parallel `messages` and `keys`
arrays (spec §3). -/
structure JavaScriptMessageBundle where
  messages : List Str
  keys : List KeyInfo
deriving DecidableEq

/-- The JSON contents of a file reaching `createKeyValuePairFile`:
either a value that satisfies the `JavaScriptMessageBundle.is` check or
some other JSON (kept as raw text). -/
inductive KvpContents
  | raw (s : Str)
  | bundle (b : JavaScriptMessageBundle)
deriving DecidableEq

/-- A vinyl record as consumed by `createKeyValuePairFile`. -/
structure KvpFile where
  relative : Str
  base : Str
  contents : KvpContents
deriving DecidableEq

/-- Output records of `createKeyValuePairFile`. -/
inductive KvpOut
  | passthrough (f : KvpFile)
  | kvpFile (path : Str) (content : List (Str × Str))
deriving DecidableEq

/-- Modelled from the spec: `bundle2keyValuePair` from `./lib` (not
under src/): the key/value map pairing each key id with its message
(spec §6, `*.i18n.json` maps key to string). -/
def bundle2keyValuePair (b : JavaScriptMessageBundle) : List (Str × Str) :=
  List.zipWith (fun k m => (KeyInfo.key k, m)) b.keys b.messages

/-- The through function of `createKeyValuePairFile` (src/main.ts
269-306): unrecognized names pass through; a recognized bundle with
mismatched lengths is re-emitted alone; otherwise the input is
re-emitted followed by the `.i18n.json` file; JSON that fails the
bundle check raises the not-a-valid-bundle error. -/
def createKeyValuePairFileStep (f : KvpFile) : Except Str (List KvpOut) :=
  if ¬ hasMetadataSuffix (pathBasename f.relative) = true then
    .ok [KvpOut.passthrough f]
  else
    match f.contents with
    | .raw _ => .error ("Not a valid JavaScript message bundle: ".toList ++ f.relative)
    | .bundle b =>
      if b.messages.length ≠ b.keys.length then .ok [KvpOut.passthrough f]
      else .ok [KvpOut.passthrough f,
        KvpOut.kvpFile
          (pathJoin f.base (f.relative.take
              (f.relative.length - NLS_METADATA_JSON.length))
            ++ ".i18n.json".toList)
          (bundle2keyValuePair b)]

/-- The JSON payload shapes read by `createXlfFiles`; `JSON.parse` is
external, so contents arrive already structured; a payload that does not
have the shape the branch stores is a parse failure. -/
inductive XlfInContents
  | pkgJson (entries : List (Str × MessageInfo))
  | pkgLang (bundle : PackageJsonMessageBundle)
  | metadata (data : List (Str × (List KeyInfo × List Str)))
  | bundleJson (bundle : List (Str × List Str))
  | headerJson (hid outDir : Str)
  | other (s : Str)
deriving DecidableEq

/-- A vinyl record as consumed by `createXlfFiles`. -/
structure XlfInFile where
  path : Str
  contents : XlfInContents
deriving DecidableEq

/-- The accumulator of `createXlfFiles` (src/main.ts 580-583). -/
structure CreateXlfState where
  xlf : Option XLF
  header : Option (Str × Str)
  data : Option (List (Str × (List KeyInfo × List Str)))
  packageBundle : Option PackageJsonMessageBundle
  bundle : Option (List (Str × List Str))
deriving DecidableEq

/-- The error message of src/main.ts 614. -/
def notValidNlsMsg (path : Str) : Str :=
  path ++ " is not a valid nls or meta data file".toList

/-- The error message used for a payload that does not parse to the
shape a recognized branch stores. -/
def badPayloadMsg : Str := "Unexpected JSON payload".toList

/-- The guard `languageId && basename === \`...${languageId}.json\``
(src/main.ts 605 and 609): JavaScript truthiness of the id plus the name
comparison. -/
def langNameMatch (languageId : Option Str) (basename pre : Str) : Bool :=
  match languageId with
  | some l => (!(l == [])) && (basename == pre ++ l ++ ".json".toList)
  | none => false

/-- The data-event function of `createXlfFiles` (src/main.ts 590-616):
dispatch on the basename; a file with an unrecognized name raises the
not-a-valid-nls-or-meta-data-file error instead of passing through.
`getXlf` materializes the document lazily (src/main.ts 584-589). -/
def createXlfFilesStep (projectName : Str) (languageId : Option Str)
    (st : CreateXlfState) (f : XlfInFile) : Except Str CreateXlfState :=
  let basename := pathBasename f.path
  let xlf0 := st.xlf.getD (XLF.new projectName languageId)
  if basename = "package.nls.json".toList then
    match f.contents with
    | .pkgJson entries =>
      (xlf0.addFile "package".toList (entries.map (fun q => KeyInfo.plain q.1))
          (entries.map (fun q => q.2))).map
        (fun x => { st with xlf := some x })
    | _ => .error badPayloadMsg
  else if langNameMatch languageId basename "package.nls.".toList then
    match f.contents with
    | .pkgLang b => .ok { st with packageBundle := some b }
    | _ => .error badPayloadMsg
  else if basename = "nls.metadata.json".toList then
    match f.contents with
    | .metadata d => .ok { st with data := some d }
    | _ => .error badPayloadMsg
  else if langNameMatch languageId basename "nls.bundle.".toList then
    match f.contents with
    | .bundleJson b => .ok { st with bundle := some b }
    | _ => .error badPayloadMsg
  else if basename = "nls.metadata.header.json".toList then
    match f.contents with
    | .headerJson hid outDir => .ok { st with header := some (hid, outDir) }
    | _ => .error badPayloadMsg
  else .error (notValidNlsMsg f.path)

/-- C7 counterexample: `createXlfFiles` treats an unrecognized file as an
error (src/main.ts 613-615) instead of passing it through. -/
theorem c7_passthrough_counterexample :
    createXlfFilesStep ['p'] none
      (CreateXlfState.mk none none none none none)
      (XlfInFile.mk "/x/other.txt".toList (XlfInContents.other []))
      = .error (notValidNlsMsg "/x/other.txt".toList) := by
  rfl

/-- C7 (amended): `bundleMetaDataFiles`, `createKeyValuePairFile` and
`bundleLanguageFiles` route a file they do not recognize through
unchanged with their accumulators untouched, but `createXlfFiles` raises
the not-a-valid-nls-or-meta-data-file error for it. -/
theorem c7_unrecognized_routing :
    (∀ st f, ¬ hasMetadataSuffix (pathBasename (MetaFile.relative f)) = true →
      bundleMetaDataFilesStep st f = (st, [f]))
    ∧ (∀ f, ¬ hasMetadataSuffix (pathBasename (KvpFile.relative f)) = true →
      createKeyValuePairFileStep f = .ok [KvpOut.passthrough f])
    ∧ (∀ st f, matchNlsBasename (pathBasename (NlsFile.path f)) = none →
      bundleLanguageFilesStep st f = some (st, [BundleOut.passthrough f]))
    ∧ (∀ proj lang st f,
        pathBasename (XlfInFile.path f) ≠ "package.nls.json".toList →
        ¬ langNameMatch lang (pathBasename (XlfInFile.path f))
            "package.nls.".toList = true →
        pathBasename (XlfInFile.path f) ≠ "nls.metadata.json".toList →
        ¬ langNameMatch lang (pathBasename (XlfInFile.path f))
            "nls.bundle.".toList = true →
        pathBasename (XlfInFile.path f) ≠ "nls.metadata.header.json".toList →
        createXlfFilesStep proj lang st f = .error (notValidNlsMsg (XlfInFile.path f))) := by
  refine ⟨?_, ?_, ?_, ?_⟩
  · intro st f h
    rw [bundleMetaDataFilesStep, if_pos h]
  · intro f h
    rw [createKeyValuePairFileStep, if_pos h]
  · intro st f h
    rw [bundleLanguageFilesStep, h]
  · intro proj lang st f h1 h2 h3 h4 h5
    simp only [createXlfFilesStep]
    rw [if_neg h1, if_neg h2, if_neg h3, if_neg h4, if_neg h5]

/-- Witness for C7's amended theorem on a concrete `other.txt` file. -/
theorem c7_unrecognized_routing_witness :
    (¬ hasMetadataSuffix (pathBasename "other.txt".toList) = true
      ∧ bundleMetaDataFilesStep (none, MetaDataBundlerState.mk ['i'] ['o'] [])
          (MetaFile.mk "other.txt".toList ['b'] (SingleMetaDataFile.mk [] [] []))
        = ((none, MetaDataBundlerState.mk ['i'] ['o'] []),
           [MetaFile.mk "other.txt".toList ['b'] (SingleMetaDataFile.mk [] [] [])]))
    ∧ (createKeyValuePairFileStep (KvpFile.mk "other.txt".toList ['b'] (KvpContents.raw []))
        = .ok [KvpOut.passthrough (KvpFile.mk "other.txt".toList ['b'] (KvpContents.raw []))])
    ∧ (matchNlsBasename (pathBasename "other.txt".toList) = none
      ∧ bundleLanguageFilesStep []
          (NlsFile.mk "other.txt".toList "other.txt".toList ['b'] [])
        = some ([], [BundleOut.passthrough
            (NlsFile.mk "other.txt".toList "other.txt".toList ['b'] [])]))
    ∧ createXlfFilesStep ['p'] (some "fr".toList)
        (CreateXlfState.mk none none none none none)
        (XlfInFile.mk "other.txt".toList (XlfInContents.other []))
        = .error (notValidNlsMsg "other.txt".toList) := by
  refine ⟨⟨by decide, ?_⟩, ?_, ⟨by decide, ?_⟩, ?_⟩
  · exact c7_unrecognized_routing.1 _ _ (by decide)
  · exact c7_unrecognized_routing.2.1 _ (by decide)
  · exact c7_unrecognized_routing.2.2.1 _ _ (by decide)
  · exact c7_unrecognized_routing.2.2.2 ['p'] (some "fr".toList) _ _ (by decide)
      (by decide) (by decide) (by decide) (by decide)

end NlsDev
